import Mathlib

/-!
Shallow embedding of the MOSIP OCR core (validator, field extractor,
preprocessor pipeline skeleton) and proofs about it.

Python strings are modelled as Lean `String` / `List Char`; Python floats
that only ever hold small exact decimal confidences are modelled as `ℚ`;
Python exceptions raised by a rule's `validate` are modelled with `Except`.
Character classes (`\w`, `\d`, `\s`, `str.lower`) are modelled on their
ASCII behaviour plus the standard Python whitespace code points.
-/

/-- Python whitespace (the set stripped by `str.strip()` and matched by `\s`). -/
def isPySpace (c : Char) : Bool :=
  let n := c.toNat
  n = 32 || n = 9 || n = 10 || n = 13 || n = 11 || n = 12 ||
  (28 ≤ n && n ≤ 31) || n = 0x85 || n = 0xa0 || n = 0x1680 ||
  (0x2000 ≤ n && n ≤ 0x200a) || n = 0x2028 || n = 0x2029 ||
  n = 0x202f || n = 0x205f || n = 0x3000

/-- Regex `\w` (ASCII letters, digits, underscore). -/
def isWordChar (c : Char) : Bool :=
  let n := c.toNat
  (65 ≤ n && n ≤ 90) || (97 ≤ n && n ≤ 122) || (48 ≤ n && n ≤ 57) || n = 95

/-- Regex `\d` (ASCII decimal digit). -/
def digitC (c : Char) : Bool :=
  48 ≤ c.toNat && c.toNat ≤ 57

/-- `str.lower()` (per-character, ASCII). -/
def pyLower (s : String) : String := ⟨s.data.map Char.toLower⟩

/-- `str.strip()`: remove leading and trailing Python whitespace. -/
def pyStrip (s : String) : String :=
  ⟨((s.data.dropWhile isPySpace).reverse.dropWhile isPySpace).reverse⟩

/-- `str.isdigit()` (ASCII): nonempty and all decimal digits. -/
def pyIsDigit (l : List Char) : Bool := !l.isEmpty && l.all digitC

/-- First index at which `needle` occurs in `hay` (`str.find`). -/
def strFind : List Char → List Char → Option Nat
  | hay, needle =>
    if needle.isPrefixOf hay then some 0
    else
      match hay with
      | [] => none
      | _ :: t => (strFind t needle).map (· + 1)

/-- Python `needle in hay` substring test. -/
def containsSub (needle hay : List Char) : Bool := (strFind hay needle).isSome

/-- Helper for `pySplit`: walks the characters keeping the current word. -/
def pySplitAux : List Char → List Char → List (List Char)
  | [], cur => if cur.isEmpty then [] else [cur]
  | c :: t, cur =>
    if isPySpace c then
      if cur.isEmpty then pySplitAux t [] else cur :: pySplitAux t []
    else pySplitAux t (cur ++ [c])

/-- `str.split()`: split on runs of whitespace, dropping empty pieces. -/
def pySplit (l : List Char) : List (List Char) := pySplitAux l []

/-- Join a list of character lists with a separator (`sep.join`). -/
def joinSep (sep : List Char) : List (List Char) → List Char
  | [] => []
  | [w] => w
  | w :: ws => w ++ sep ++ joinSep sep ws

/-- Remove a leading run of characters satisfying `p` (`re.sub('^[..]+','',s)`). -/
def lstripClass (p : Char → Bool) (s : String) : String :=
  ⟨s.data.dropWhile p⟩

/-! ## A small regex engine

Each `re` pattern literal of the source is embedded as a `Re` term.
Quantifiers in the source's patterns are either bounded/unbounded greedy
repetitions of a single character class (`\d{4}`, `\s*`, `[..]+`) or `?`
on a subexpression, which is exactly what `Re` offers, so every pattern
translates node by node.  Matching is leftmost, greedy with backtracking,
like CPython's `re`. -/

inductive Re where
  /-- empty pattern -/
  | eps : Re
  /-- single character class -/
  | cls : (Char → Bool) → Re
  /-- concatenation -/
  | seq : Re → Re → Re
  /-- alternation, left preferred -/
  | alt : Re → Re → Re
  /-- greedy `?` -/
  | opt : Re → Re
  /-- greedy repetition `{min,max}` of a character class (`max = none` = unbounded) -/
  | reps : (Char → Bool) → Nat → Option Nat → Re
  /-- capture group (group 1) -/
  | group : Re → Re
  /-- word boundary `\b` -/
  | wb : Re

/-- Literal character sequence. -/
def litL : List Char → Re
  | [] => .eps
  | c :: cs => .seq (.cls (fun x => x == c)) (litL cs)

/-- Does the pattern contain a capture group (`match.groups()` nonempty)? -/
def hasGroups : Re → Bool
  | .eps => false
  | .cls _ => false
  | .seq a b => hasGroups a || hasGroups b
  | .alt a b => hasGroups a || hasGroups b
  | .opt a => hasGroups a
  | .reps _ _ _ => false
  | .group _ => true
  | .wb => false

/-- Character-class test, with optional `re.IGNORECASE`. -/
def reTest (ic : Bool) (p : Char → Bool) (c : Char) : Bool :=
  p c || (ic && (p c.toLower || p c.toUpper))

/-- Length of the maximal run of characters satisfying `p` at the head. -/
def runL (ic : Bool) (p : Char → Bool) : List Char → Nat
  | [] => 0
  | c :: cs => if reTest ic p c then runL ic p cs + 1 else 0

/-- Maximal run length starting at position `pos` of `s`. -/
def runLen (ic : Bool) (p : Char → Bool) (s : List Char) (pos : Nat) : Nat :=
  runL ic p (s.drop pos)

/-- Is the character at index `i` (if any) a word character? -/
def isWordAt (s : List Char) (i : Nat) : Bool :=
  match s[i]? with
  | some c => isWordChar c
  | none => false

/-- `\b` holds at position `pos` of `s`. -/
def wbAt (s : List Char) (pos : Nat) : Bool :=
  if pos = 0 then isWordAt s 0 else isWordAt s (pos - 1) != isWordAt s pos

/-- Try continuation `k` at offsets `base + j, base + (j-1), …, base + min`,
    first success wins (greedy repetition backtracking). -/
def tryDown {α : Type} (k : Nat → Option α) (base min : Nat) : Nat → Option α
  | 0 => if 0 < min then none else k base
  | j + 1 =>
    if j + 1 < min then none
    else
      match k (base + (j + 1)) with
      | some r => some r
      | none => tryDown k base min j

/-- The backtracking matcher, in continuation-passing style.  `pos` is the
    current position in `s`, `g` the span of group 1 if captured so far,
    `k` the continuation receiving the position and group after this node. -/
def mtch {α : Type} (s : List Char) (ic : Bool) :
    Re → Nat → Option (Nat × Nat) → (Nat → Option (Nat × Nat) → Option α) → Option α
  | .eps, pos, g, k => k pos g
  | .cls p, pos, g, k =>
    match s[pos]? with
    | some c => if reTest ic p c then k (pos + 1) g else none
    | none => none
  | .seq a b, pos, g, k => mtch s ic a pos g (fun pos2 g2 => mtch s ic b pos2 g2 k)
  | .alt a b, pos, g, k =>
    match mtch s ic a pos g k with
    | some r => some r
    | none => mtch s ic b pos g k
  | .opt a, pos, g, k =>
    match mtch s ic a pos g k with
    | some r => some r
    | none => k pos g
  | .reps p mn mx, pos, g, k =>
    let run := runLen ic p s pos
    let hi := match mx with | some m => Nat.min run m | none => run
    tryDown (fun pos2 => k pos2 g) pos mn hi
  | .group a, pos, g, k => mtch s ic a pos g (fun pos2 _ => k pos2 (some (pos, pos2)))
  | .wb, pos, g, k => if wbAt s pos then k pos g else none

/-- Characters of `s` from position `st` (inclusive) to `e` (exclusive). -/
def subSlice (s : List Char) (st e : Nat) : List Char := (s.drop st).take (e - st)

/-- One match attempt anchored at `pos`: end position and group-1 span. -/
def hitAt (r : Re) (ic : Bool) (s : List Char) (pos : Nat) :
    Option (Nat × Option (Nat × Nat)) :=
  mtch s ic r pos none (fun e g => some (e, g))

/-- `re.search` scan from `pos` with `fuel` positions left to try. -/
def searchFrom (r : Re) (ic : Bool) (s : List Char) :
    Nat → Nat → Option (Nat × Nat × Option (Nat × Nat))
  | _, 0 => none
  | pos, fuel + 1 =>
    match hitAt r ic s pos with
    | some (e, g) => some (pos, e, g)
    | none => if pos < s.length then searchFrom r ic s (pos + 1) fuel else none

/-- `re.search`: leftmost match as (group 0, optional group 1). -/
def reSearch (r : Re) (ic : Bool) (s : String) : Option (String × Option String) :=
  match searchFrom r ic s.data 0 (s.data.length + 1) with
  | some (st, e, g) =>
    some (⟨subSlice s.data st e⟩, g.map (fun gs => (⟨subSlice s.data gs.1 gs.2⟩ : String)))
  | none => none

/-- `re.findall` scan (patterns without groups): non-overlapping matches. -/
def findAllFrom (r : Re) (s : List Char) : Nat → Nat → List (List Char)
  | _, 0 => []
  | pos, fuel + 1 =>
    match hitAt r false s pos with
    | some (e, _) => subSlice s pos e :: findAllFrom r s (Nat.max e (pos + 1)) fuel
    | none => if pos < s.length then findAllFrom r s (pos + 1) fuel else []

/-- `re.findall` over the whole string. -/
def findAll (r : Re) (s : List Char) : List (List Char) :=
  findAllFrom r s 0 (s.length + 1)

/-! ## Text validation (src/ocr/validator.py)

A rule object is its `name`, `description` and a `validate` function;
`Except` models a Python exception escaping `validate`. -/

/-- One parsed date of the date rule (`{"original", "parsed", "format"}`). -/
structure FoundDate where
  original : String
  parsed : String
  format : String
deriving DecidableEq, Repr

/-- The `details` dictionary of a rule result, as a tagged variant per rule. -/
inductive Details where
  /-- length rule: `{"length", "min", "max"}` -/
  | lengthD (length min max : Nat)
  /-- character rule: `{"invalid_chars"}` -/
  | charsD (invalid_chars : List Char)
  /-- aadhaar rule: `{"matches"}` -/
  | aadhaarD (matchesS : List String)
  /-- date rule: `{"dates"}` -/
  | datesD (dates : List FoundDate)
  /-- pattern rule: `{"pattern_matched", "must_match"}` -/
  | patternD (pattern_matched must_match : Bool)
  /-- rule-execution failure: `{"error"}` -/
  | errorD (error : String)
deriving DecidableEq, Repr

/-- A rule's validation result dictionary. -/
structure RuleResult where
  rule : String
  valid : Bool
  message : String
  details : Details
deriving DecidableEq, Repr

/-- The dictionary returned by `TextValidator.validate_text`. -/
structure Report where
  valid : Bool
  message : String
  rules_passed : Nat
  rules_failed : Nat
  rule_results : List RuleResult
deriving DecidableEq, Repr

/-- A validation rule: a `validate` call either returns a result or raises. -/
structure Rule where
  name : String
  description : String
  validate : String → Except String RuleResult

/-- `config.validation_min_text_length` (default configuration). -/
def validationMinTextLength : Nat := 2

/-- `config.validation_max_text_length` (default configuration). -/
def validationMaxTextLength : Nat := 1000

/-- `config.validation_allowed_chars` (default configuration). -/
def validationAllowedChars : String :=
  "abcdefghijklmnopqrstuvwxyzABCDEFGHIJKLMNOPQRSTUVWXYZ0123456789 -.,/()[]"

/-- `LengthValidationRule(min_length, max_length)`. -/
def LengthValidationRule (min_length max_length : Nat) : Rule where
  name := "length"
  description := "Text length between " ++ toString min_length ++ " and " ++ toString max_length
  validate := fun text =>
    let text_length := (pyStrip text).length
    let is_valid := decide (min_length ≤ text_length ∧ text_length ≤ max_length)
    .ok
      { rule := "length"
        valid := is_valid
        message :=
          if is_valid then "Text length: " ++ toString text_length
          else
            "Text length " ++ toString text_length ++ " not in range [" ++
              toString min_length ++ ", " ++ toString max_length ++ "]"
        details := .lengthD text_length min_length max_length }

/-- Sorted insertion without duplicates (for `sorted(set(..))`). -/
def insChar (c : Char) : List Char → List Char
  | [] => [c]
  | d :: ds =>
    if c.toNat < d.toNat then c :: d :: ds
    else if c = d then d :: ds
    else d :: insChar c ds

/-- Sort a character list and drop duplicates: Python sets carry no order,
    so the set of invalid characters is modelled by its sorted enumeration. -/
def sortChars (l : List Char) : List Char := l.foldr insChar []

/-- `CharacterValidationRule(allowed_chars)`. -/
def CharacterValidationRule (allowed_chars : String) : Rule where
  name := "characters"
  description := "Only allowed characters: " ++ (⟨allowed_chars.data.take 50⟩ : String) ++ "..."
  validate := fun text =>
    let invalid_chars := sortChars (text.data.filter (fun c => !allowed_chars.data.contains c))
    let is_valid := invalid_chars.isEmpty
    .ok
      { rule := "characters"
        valid := is_valid
        message :=
          if is_valid then "All characters are valid"
          else
            "Invalid characters found: " ++
              ⟨joinSep ", ".data (invalid_chars.map (fun c => [c]))⟩
        details := .charsD invalid_chars }

/-- The aadhaar pattern `\b\d{4}\s*\d{4}\s*\d{4}\b`. -/
def aadhaarRe : Re :=
  .seq .wb (.seq (.reps digitC 4 (some 4)) (.seq (.reps isPySpace 0 none)
    (.seq (.reps digitC 4 (some 4)) (.seq (.reps isPySpace 0 none)
      (.seq (.reps digitC 4 (some 4)) .wb)))))

/-- `re.sub(r'\s+', '', ·)`: drop every whitespace character. -/
def despace (l : List Char) : List Char := l.filter (fun c => !isPySpace c)

/-- Body of `AadhaarValidationRule.validate`. -/
def AadhaarValidationRule.validateFn (text : String) : RuleResult :=
  let ms := findAll aadhaarRe text.data
  let is_valid :=
    ms.any (fun m =>
      let cleaned_match := despace m
      cleaned_match.length == 12 && pyIsDigit cleaned_match)
  { rule := "aadhaar"
    valid := is_valid
    message := if is_valid then "Valid Aadhaar format found" else "No valid Aadhaar format found"
    details := .aadhaarD (ms.map (fun m => (⟨m⟩ : String))) }

/-- `AadhaarValidationRule()`. -/
def AadhaarValidationRule : Rule where
  name := "aadhaar"
  description := "Aadhaar number format validation"
  validate := fun text => .ok (AadhaarValidationRule.validateFn text)

/-! ### Date rule -/

/-- The three `(pattern, format)` pairs of `DateValidationRule`. -/
inductive DateFormat where
  /-- `%d/%m/%Y` -/
  | dmY
  /-- `%d/%m/%y` -/
  | dmy
  /-- `%Y/%m/%d` -/
  | Ymd
deriving DecidableEq, Repr

/-- The format string as stored in a found date. -/
def DateFormat.fmtStr : DateFormat → String
  | .dmY => "%d/%m/%Y"
  | .dmy => "%d/%m/%y"
  | .Ymd => "%Y/%m/%d"

/-- Pattern 1: day, month, 4-digit year separated by slash or dash, word-bounded. -/
def datePat1 : Re :=
  .seq .wb (.seq (.reps digitC 1 (some 2)) (.seq (.cls (fun c => c == '/' || c == '-'))
    (.seq (.reps digitC 1 (some 2)) (.seq (.cls (fun c => c == '/' || c == '-'))
      (.seq (.reps digitC 4 (some 4)) .wb)))))

/-- Pattern 2: day, month, 2-digit year separated by slash or dash, word-bounded. -/
def datePat2 : Re :=
  .seq .wb (.seq (.reps digitC 1 (some 2)) (.seq (.cls (fun c => c == '/' || c == '-'))
    (.seq (.reps digitC 1 (some 2)) (.seq (.cls (fun c => c == '/' || c == '-'))
      (.seq (.reps digitC 2 (some 2)) .wb)))))

/-- Pattern 3: 4-digit year, month, day separated by slash or dash, word-bounded. -/
def datePat3 : Re :=
  .seq .wb (.seq (.reps digitC 4 (some 4)) (.seq (.cls (fun c => c == '/' || c == '-'))
    (.seq (.reps digitC 1 (some 2)) (.seq (.cls (fun c => c == '/' || c == '-'))
      (.seq (.reps digitC 1 (some 2)) .wb)))))

/-- The ordered pattern list of `DateValidationRule.__init__`. -/
def DateValidationRule.patterns : List (Re × DateFormat) :=
  [(datePat1, .dmY), (datePat2, .dmy), (datePat3, .Ymd)]

/-- Numeric value of an ASCII digit. -/
def digitVal (c : Char) : Nat := c.toNat - 48

/-- `strptime` day directive `%d`, i.e. `(3[01]|[12]\d|0[1-9]|[1-9])`. -/
def parseDay : List Char → Option (Nat × List Char)
  | '3' :: '0' :: rest => some (30, rest)
  | '3' :: '1' :: rest => some (31, rest)
  | c :: d :: rest =>
    if (c == '1' || c == '2') && digitC d then some (digitVal c * 10 + digitVal d, rest)
    else if c == '0' && (49 ≤ d.toNat && d.toNat ≤ 57) then some (digitVal d, rest)
    else if 49 ≤ c.toNat && c.toNat ≤ 57 then some (digitVal c, d :: rest)
    else none
  | [c] => if 49 ≤ c.toNat && c.toNat ≤ 57 then some (digitVal c, []) else none
  | [] => none

/-- `strptime` month directive `%m`, i.e. `(1[0-2]|0[1-9]|[1-9])`. -/
def parseMonth : List Char → Option (Nat × List Char)
  | c :: d :: rest =>
    if c == '1' && (48 ≤ d.toNat && d.toNat ≤ 50) then some (10 + digitVal d, rest)
    else if c == '0' && (49 ≤ d.toNat && d.toNat ≤ 57) then some (digitVal d, rest)
    else if 49 ≤ c.toNat && c.toNat ≤ 57 then some (digitVal c, d :: rest)
    else none
  | [c] => if 49 ≤ c.toNat && c.toNat ≤ 57 then some (digitVal c, []) else none
  | [] => none

/-- `strptime` year directive `%Y`: exactly four digits. -/
def parseYear4 : List Char → Option (Nat × List Char)
  | a :: b :: c :: d :: rest =>
    if digitC a && digitC b && digitC c && digitC d then
      some (digitVal a * 1000 + digitVal b * 100 + digitVal c * 10 + digitVal d, rest)
    else none
  | _ => none

/-- `strptime` year directive `%y`: two digits, 00–68 ↦ 2000s, 69–99 ↦ 1900s. -/
def parseYear2 : List Char → Option (Nat × List Char)
  | a :: b :: rest =>
    if digitC a && digitC b then
      let y := digitVal a * 10 + digitVal b
      some (if y ≤ 68 then 2000 + y else 1900 + y, rest)
    else none
  | _ => none

/-- Expect a literal `/`. -/
def parseSlash : List Char → Option (List Char)
  | '/' :: rest => some rest
  | _ => none

/-- Gregorian leap year. -/
def isLeapYear (y : Nat) : Bool := y % 4 == 0 && (y % 100 != 0 || y % 400 == 0)

/-- Days in a month (1–12). -/
def daysInMonth (y m : Nat) : Nat :=
  if m = 2 then (if isLeapYear y then 29 else 28)
  else if m = 4 || m = 6 || m = 9 || m = 11 then 30
  else 31

/-- `datetime.strptime(s, fmt)` for the three formats used by the date rule:
    directive-by-directive parse, whole string consumed, then the
    `datetime(year, month, day)` range check. -/
def strptime (fmt : DateFormat) (s : List Char) : Option (Nat × Nat × Nat) :=
  let parsed : Option (Nat × Nat × Nat) :=
    match fmt with
    | .dmY => do
      let (d, r1) ← parseDay s
      let r2 ← parseSlash r1
      let (m, r3) ← parseMonth r2
      let r4 ← parseSlash r3
      let (y, r5) ← parseYear4 r4
      if r5.isEmpty then some (y, m, d) else none
    | .dmy => do
      let (d, r1) ← parseDay s
      let r2 ← parseSlash r1
      let (m, r3) ← parseMonth r2
      let r4 ← parseSlash r3
      let (y, r5) ← parseYear2 r4
      if r5.isEmpty then some (y, m, d) else none
    | .Ymd => do
      let (y, r1) ← parseYear4 s
      let r2 ← parseSlash r1
      let (m, r3) ← parseMonth r2
      let r4 ← parseSlash r3
      let (d, r5) ← parseDay r4
      if r5.isEmpty then some (y, m, d) else none
  match parsed with
  | some (y, m, d) => if 1 ≤ y ∧ 1 ≤ d ∧ d ≤ daysInMonth y m then some (y, m, d) else none
  | none => none

/-- Left-pad a decimal rendering with zeros to width `w`. -/
def padNat (w n : Nat) : String :=
  let s := toString n
  ⟨List.replicate (w - s.length) '0' ++ s.data⟩

/-- `date.strftime('%Y-%m-%d')`. -/
def strftimeYMD (ymd : Nat × Nat × Nat) : String :=
  padNat 4 ymd.1 ++ "-" ++ padNat 2 ymd.2.1 ++ "-" ++ padNat 2 ymd.2.2

/-- Body of `DateValidationRule.validate`: for each `(pattern, format)` pair
    collect every regex match that also parses as a date. -/
def DateValidationRule.validateFn (text : String) : RuleResult :=
  let found_dates :=
    DateValidationRule.patterns.flatMap (fun pf =>
      (findAll pf.1 text.data).filterMap (fun m =>
        (strptime pf.2 (m.map (fun c => if c = '-' then '/' else c))).map (fun ymd =>
          ({ original := ⟨m⟩, parsed := strftimeYMD ymd, format := pf.2.fmtStr } : FoundDate))))
  let is_valid := !found_dates.isEmpty
  { rule := "date"
    valid := is_valid
    message :=
      if is_valid then "Found " ++ toString found_dates.length ++ " valid dates"
      else "No valid dates found"
    details := .datesD found_dates }

/-- `DateValidationRule()`. -/
def DateValidationRule : Rule where
  name := "date"
  description := "Date format validation"
  validate := fun text => .ok (DateValidationRule.validateFn text)

/-! ### `TextValidator` -/

/-- `TextValidator._initialize_default_rules()` under the default configuration. -/
def defaultRules : List Rule :=
  [LengthValidationRule validationMinTextLength validationMaxTextLength,
   CharacterValidationRule validationAllowedChars]

/-- The `for rule in rules_to_apply` loop of `validate_text`: accumulates
    `rule_results`, `passed_count` and `failed_count`; a raising rule is
    recorded as a failing result carrying the error text. -/
def validateLoop (text : String) :
    List Rule → List RuleResult → Nat → Nat → List RuleResult × Nat × Nat
  | [], acc, passed_count, failed_count => (acc, passed_count, failed_count)
  | rule :: rs, acc, passed_count, failed_count =>
    match rule.validate text with
    | .ok result =>
      if result.valid then validateLoop text rs (acc ++ [result]) (passed_count + 1) failed_count
      else validateLoop text rs (acc ++ [result]) passed_count (failed_count + 1)
    | .error e =>
      validateLoop text rs
        (acc ++ [{ rule := rule.name, valid := false,
                   message := "Rule execution failed: " ++ e, details := .errorD e }])
        passed_count (failed_count + 1)

/-- `TextValidator.validate_text(text, rule_names)` for an engine whose rule
    list is `rules`.  `rule_names = none` models the `None` default, and a
    supplied empty list is falsy in `if rule_names:` just as in the source. -/
def validate_text (rules : List Rule) (text : String)
    (rule_names : Option (List String) := none) : Report :=
  if (pyStrip text).data.isEmpty then
    { valid := false
      message := "Empty or whitespace-only text"
      rules_passed := 0
      rules_failed := 0
      rule_results := [] }
  else
    let rules_to_apply :=
      match rule_names with
      | none => rules
      | some names => if names.isEmpty then rules else rules.filter (fun r => names.contains r.name)
    let res := validateLoop text rules_to_apply [] 0 0
    let overall_valid := res.2.2 == 0
    { valid := overall_valid
      message :=
        "Validation " ++ (if overall_valid then "passed" else "failed") ++ ": " ++
          toString res.2.1 ++ " passed, " ++ toString res.2.2 ++ " failed"
      rules_passed := res.2.1
      rules_failed := res.2.2
      rule_results := res.1 }

/-- The result one rule contributes to `rule_results` on text `text`
    (normal return, or the failing result built in the `except` branch). -/
def applyRule (text : String) (rule : Rule) : RuleResult :=
  match rule.validate text with
  | .ok result => result
  | .error e =>
    { rule := rule.name, valid := false,
      message := "Rule execution failed: " ++ e, details := .errorD e }

/-! ## Field extraction (src/ocr/field_extractor.py) -/

/-- A recognized text block as consumed by the extractor
    (`block["text"]`, `block.get("bbox")`). -/
structure TextBlock where
  text : String
  bbox : Option (List (Int × Int)) := none
deriving DecidableEq, Repr

/-- `FieldDefinition` dataclass. -/
structure FieldDefinition where
  name : String
  keywords : List String
  pattern : Option Re := none
  data_type : String := "text"
  required : Bool := false

/-- `ExtractedField` dataclass. -/
structure ExtractedField where
  field_name : String
  value : String
  confidence : ℚ
  source_text : String
  bbox : Option (List (Int × Int)) := none
deriving DecidableEq, Repr

/-- A caller-supplied field-definition dictionary (absent keys are `none`). -/
structure FieldDefInput where
  name : String
  keywords : Option (List String) := none
  pattern : Option Re := none
  data_type : Option String := none
  required : Option Bool := none

/-- Class for a single ASCII character. -/
def chC (c : Char) : Re := .cls (fun x => x == c)

/-- `[\s-]`. -/
def phoneSepC (c : Char) : Bool := isPySpace c || c == '-'

/-- Predefined `age` pattern `\b(\d{1,3})\s*(?:years?|yrs?|साल)?\b`. -/
def agePat : Re :=
  .seq .wb (.seq (.group (.reps digitC 1 (some 3)))
    (.seq (.reps isPySpace 0 none)
      (.seq (.opt (.alt (.seq (litL "year".data) (.opt (chC 's')))
                  (.alt (.seq (litL "yr".data) (.opt (chC 's')))
                        (litL "साल".data))))
        .wb)))

/-- Predefined `gender` pattern `\b(male|female|m|f|पुरुष|महिला|मर्द|औरत)\b`. -/
def genderPat : Re :=
  .seq .wb (.seq (.group
    (.alt (litL "male".data) (.alt (litL "female".data) (.alt (litL "m".data)
      (.alt (litL "f".data) (.alt (litL "पुरुष".data) (.alt (litL "महिला".data)
        (.alt (litL "मर्द".data) (litL "औरत".data)))))))))
    .wb)

/-- Phone pattern `\b(\+?91[\s-]?)?[6-9]\d{2}[\s-]?\d{3}[\s-]?\d{4}\b`. -/
def phonePat : Re :=
  .seq .wb (.seq (.opt (.group (.seq (.opt (chC '+'))
      (.seq (litL "91".data) (.opt (.cls phoneSepC))))))
    (.seq (.cls (fun c => 54 ≤ c.toNat && c.toNat ≤ 57))
      (.seq (.reps digitC 2 (some 2)) (.seq (.opt (.cls phoneSepC))
        (.seq (.reps digitC 3 (some 3)) (.seq (.opt (.cls phoneSepC))
          (.seq (.reps digitC 4 (some 4)) .wb)))))))

/-- `[A-Za-z0-9._%+-]` (e-mail local part). -/
def emailLocalC (c : Char) : Bool :=
  let n := c.toNat
  (65 ≤ n && n ≤ 90) || (97 ≤ n && n ≤ 122) || (48 ≤ n && n ≤ 57) ||
    c == '.' || c == '_' || c == '%' || c == '+' || c == '-'

/-- `[A-Za-z0-9.-]` (e-mail domain). -/
def emailDomC (c : Char) : Bool :=
  let n := c.toNat
  (65 ≤ n && n ≤ 90) || (97 ≤ n && n ≤ 122) || (48 ≤ n && n ≤ 57) || c == '.' || c == '-'

/-- `[A-Z|a-z]` (as written in the source, the class contains `|`). -/
def alphaBarC (c : Char) : Bool :=
  let n := c.toNat
  (65 ≤ n && n ≤ 90) || (97 ≤ n && n ≤ 122) || c == '|'

/-- E-mail pattern `\b[A-Za-z0-9._%+-]+@[A-Za-z0-9.-]+\.[A-Z|a-z]{2,}\b`. -/
def emailPat : Re :=
  .seq .wb (.seq (.reps emailLocalC 1 none) (.seq (chC '@')
    (.seq (.reps emailDomC 1 none) (.seq (chC '.')
      (.seq (.reps alphaBarC 2 none) .wb)))))

/-- `[A-Z0-9]`. -/
def upperDigitC (c : Char) : Bool :=
  let n := c.toNat
  (65 ≤ n && n ≤ 90) || (48 ≤ n && n ≤ 57)

/-- ID pattern `\b[A-Z0-9]{4,}\b`. -/
def idNumberPat : Re := .seq .wb (.seq (.reps upperDigitC 4 none) .wb)

/-- Slash-or-dash class. -/
def slashDashC (c : Char) : Bool := c == '/' || c == '-'

/-- Date pattern (both orders, 2–4 digit year):
    day-month-year alternative then year-month-day alternative. -/
def dateFieldPat : Re :=
  .alt
    (.seq .wb (.seq (.reps digitC 1 (some 2)) (.seq (.cls slashDashC)
      (.seq (.reps digitC 1 (some 2)) (.seq (.cls slashDashC)
        (.seq (.reps digitC 2 (some 4)) .wb))))))
    (.seq .wb (.seq (.reps digitC 2 (some 4)) (.seq (.cls slashDashC)
      (.seq (.reps digitC 1 (some 2)) (.seq (.cls slashDashC)
        (.seq (.reps digitC 1 (some 2)) .wb))))))

/-- `\b\d+\b`. -/
def numberPat : Re := .seq .wb (.seq (.reps digitC 1 none) .wb)

/-- `setup_predefined_fields`: the predefined field catalogue, keyed by its
    dictionary key. -/
def predefinedFields : List (String × FieldDefinition) :=
  [("name", { name := "Name",
              keywords := ["name", "naam", "नाम", "नम", "full name", "patient name"],
              data_type := "text" }),
   ("age", { name := "Age", keywords := ["age", "उम्र", "आयु", "years", "yrs"],
             pattern := some agePat, data_type := "number" }),
   ("gender", { name := "Gender", keywords := ["gender", "sex", "लिंग", "जेंडर"],
                pattern := some genderPat, data_type := "text" }),
   ("phone", { name := "Phone", keywords := ["phone", "mobile", "contact", "फोन", "मोबाइल"],
               pattern := some phonePat, data_type := "phone" }),
   ("email", { name := "Email", keywords := ["email", "mail", "ईमेल"],
               pattern := some emailPat, data_type := "email" }),
   ("address", { name := "Address", keywords := ["address", "addr", "पता", "address:", "पता:"],
                 data_type := "text" }),
   ("id_number", { name := "ID Number", keywords := ["id", "number", "no", "आईडी", "संख्या"],
                   pattern := some idNumberPat, data_type := "text" }),
   ("date", { name := "Date", keywords := ["date", "dated", "तारीख", "दिनांक"],
              pattern := some dateFieldPat, data_type := "date" })]

/-- `setup_patterns`: the per-data-type fallback patterns. -/
def typePattern (data_type : String) : Option Re :=
  if data_type = "phone" then some phonePat
  else if data_type = "email" then some emailPat
  else if data_type = "number" then some numberPat
  else if data_type = "date" then some dateFieldPat
  else none

/-- Confidence assigned by the per-data-type branches of
    `_extract_value_after_keyword`. -/
def typeConfidence (data_type : String) : ℚ :=
  if data_type = "email" then mkRat 95 100
  else if data_type = "number" then mkRat 8 10
  else if data_type = "date" then mkRat 85 100
  else mkRat 9 10

/-- The "candidate region": the substring of `text` right after the first
    (case-insensitive) occurrence of `keyword`, with the leading run of
    whitespace/colon/comma/hyphen characters stripped. -/
def candidateRegion (text keyword : String) : String :=
  lstripClass (fun c => isPySpace c || c == ':' || c == ',' || c == '-')
    ⟨text.data.drop (((strFind (pyLower text).data (pyLower keyword).data).getD 0)
      + keyword.length)⟩

/-- The `text`-type word heuristic: up to three words for name-like
    keywords, one word otherwise, then characters outside
    word/whitespace/dot/hyphen removed and the result stripped. -/
def textFieldValue (keyword : String) (words : List (List Char)) : String :=
  pyStrip ⟨(if ["name", "naam", "नाम"].any
        (fun k => containsSub k.data (pyLower keyword).data) then
      pyStrip ⟨joinSep " ".data (words.take 3)⟩
    else pyStrip ⟨words.headD []⟩).data.filter
      (fun c => isWordChar c || isPySpace c || c == '.' || c == '-')⟩

/-- `_extract_value_after_keyword(text, keywords, pattern, data_type)`:
    walks the keywords in order; for the first keyword occurring in the text
    it takes the candidate region after the keyword and tries the explicit
    pattern, the data-type pattern, or the word heuristic for `text` fields;
    a keyword whose candidate region yields nothing lets the loop continue. -/
def extract_value_after_keyword (text : String) :
    List String → Option Re → String → Option String × ℚ
  | [], _, _ => (none, 0)
  | keyword :: rest, pattern, data_type =>
    if containsSub (pyLower keyword).data (pyLower text).data then
      match pattern with
      | some pat =>
        match reSearch pat true (candidateRegion text keyword) with
        | some (g0, g1) => (if hasGroups pat then g1 else some g0, mkRat 9 10)
        | none => extract_value_after_keyword text rest pattern data_type
      | none =>
        if data_type == "phone" || data_type == "email" ||
            data_type == "number" || data_type == "date" then
          match typePattern data_type with
          | some pat =>
            match reSearch pat false (candidateRegion text keyword) with
            | some (g0, _) => (some g0, typeConfidence data_type)
            | none => extract_value_after_keyword text rest pattern data_type
          | none => extract_value_after_keyword text rest pattern data_type
        else
          match pySplit (candidateRegion text keyword).data with
          | [] => extract_value_after_keyword text rest pattern data_type
          | w :: ws =>
            if (textFieldValue keyword (w :: ws)).data.isEmpty then
              extract_value_after_keyword text rest pattern data_type
            else (some (textFieldValue keyword (w :: ws)), mkRat 7 10)
    else extract_value_after_keyword text rest pattern data_type

/-- The block loop of `_extract_single_field`, carrying `best_match` and
    `best_confidence`. -/
def extractBlocksLoop (field : FieldDefinition) :
    List TextBlock → Option ExtractedField → ℚ → Option ExtractedField
  | [], best_match, _ => best_match
  | block :: bs, best_match, best_confidence =>
    if field.keywords.any (fun k => containsSub (pyLower k).data (pyLower block.text).data) then
      match extract_value_after_keyword block.text field.keywords field.pattern field.data_type with
      | (some value, confidence) =>
        if ¬value.data.isEmpty ∧ best_confidence < confidence then
          extractBlocksLoop field bs
            (some { field_name := field.name, value := value, confidence := confidence,
                    source_text := block.text, bbox := block.bbox })
            confidence
        else extractBlocksLoop field bs best_match best_confidence
      | (none, _) => extractBlocksLoop field bs best_match best_confidence
    else extractBlocksLoop field bs best_match best_confidence

/-- `_extract_single_field(field, text_blocks)`. -/
def extract_single_field (field : FieldDefinition) (text_blocks : List TextBlock) :
    Option ExtractedField :=
  extractBlocksLoop field text_blocks none (mkRat 0 1)

/-- The field-definition conversion step of `extract_fields`: a name found in
    the predefined catalogue keeps the predefined pattern/type but takes the
    caller's keywords; otherwise a custom field is built from the dictionary. -/
def toFieldDefinition (field_def : FieldDefInput) : FieldDefinition :=
  match predefinedFields.lookup (pyLower field_def.name) with
  | some predefined =>
    { name := field_def.name
      keywords := field_def.keywords.getD predefined.keywords
      pattern := predefined.pattern
      data_type := predefined.data_type
      required := field_def.required.getD false }
  | none =>
    { name := field_def.name
      keywords := field_def.keywords.getD [pyLower field_def.name]
      pattern := field_def.pattern
      data_type := field_def.data_type.getD "text"
      required := field_def.required.getD false }

/-- `extract_fields(text_blocks, field_definitions)`. -/
def extract_fields (text_blocks : List TextBlock) (field_definitions : List FieldDefInput) :
    List ExtractedField :=
  (field_definitions.map toFieldDefinition).filterMap
    (fun field => extract_single_field field text_blocks)

/-! ## Image preprocessing pipeline (src/ocr/preprocessor.py)

The four stages call into an external imaging library, so they are taken
as parameters; `preprocess` embeds the flag-dispatch skeleton that decides
which stages run.  An image is identified with its pixel data, so the
`_load_image` copy of an in-memory pixel array is the identity. -/

/-- The `ImagePreprocessor.__init__` configuration. -/
structure PreprocessorConfig where
  enhance_contrast : Bool
  denoise : Bool
  resize_factor : ℚ
  auto_rotate : Bool

/-- `ImagePreprocessor.preprocess`: auto-rotate, denoise, enhance-contrast,
    then resize unless the factor is exactly 1. -/
def preprocess {Img : Type} (autoRotateStage denoiseStage enhanceContrastStage : Img → Img)
    (resizeStage : Img → ℚ → Img) (cfg : PreprocessorConfig) (image : Img) : Img :=
  let img := image
  let img := if cfg.auto_rotate then autoRotateStage img else img
  let img := if cfg.denoise then denoiseStage img else img
  let img := if cfg.enhance_contrast then enhanceContrastStage img else img
  if cfg.resize_factor ≠ 1 then resizeStage img cfg.resize_factor else img

/-! ## Analysis definitions used by the theorems below -/

/-- What one block contributes in `_extract_single_field`: the extracted
    field if the block has a keyword match and yields a nonempty value
    (the `value and confidence > best_confidence` update then applies). -/
def blockCandidate (field : FieldDefinition) (block : TextBlock) : Option ExtractedField :=
  if field.keywords.any (fun k => containsSub (pyLower k).data (pyLower block.text).data) then
    match extract_value_after_keyword block.text field.keywords field.pattern field.data_type with
    | (some value, confidence) =>
      if value.data.isEmpty then none
      else some { field_name := field.name, value := value, confidence := confidence,
                  source_text := block.text, bbox := block.bbox }
    | (none, _) => none
  else none

/-- All candidate extractions of a field, in block scan order. -/
def candidates (field : FieldDefinition) (blocks : List TextBlock) : List ExtractedField :=
  blocks.filterMap (blockCandidate field)

/-- The best-confidence fold over the candidate list: strictly greater
    confidence replaces the current best (ties keep the earlier one). -/
def selLoop : List ExtractedField → Option ExtractedField → ℚ → Option ExtractedField
  | [], best, _ => best
  | e :: es, best, bc =>
    if bc < e.confidence then selLoop es (some e) e.confidence
    else selLoop es best bc

/-- Run of whitespace at `pos`. -/
def wRun (s : List Char) (pos : Nat) : Nat := runLen false isPySpace s pos

/-- Run of digits at `pos`. -/
def dRun (s : List Char) (pos : Nat) : Nat := runLen false digitC s pos

/-- Start of the aadhaar pattern's second digit group for an attempt at `pos`. -/
def aPos1 (s : List Char) (pos : Nat) : Nat := pos + 4 + wRun s (pos + 4)

/-- Start of the aadhaar pattern's third digit group for an attempt at `pos`. -/
def aPos2 (s : List Char) (pos : Nat) : Nat := aPos1 s pos + 4 + wRun s (aPos1 s pos + 4)

/-- End of an aadhaar match attempt at `pos`. -/
def aadhaarEnd (s : List Char) (pos : Nat) : Nat := aPos2 s pos + 4

/-- Success condition of an aadhaar match attempt at `pos`. -/
def aadhaarCond (s : List Char) (pos : Nat) : Prop :=
  wbAt s pos = true ∧ 4 ≤ dRun s pos ∧ 4 ≤ dRun s (aPos1 s pos) ∧
    4 ≤ dRun s (aPos2 s pos) ∧ wbAt s (aadhaarEnd s pos) = true

/-- The aadhaar attempt condition is decidable. -/
instance aadhaarCondDecidable (s : List Char) (pos : Nat) : Decidable (aadhaarCond s pos) := by
  unfold aadhaarCond
  infer_instance

/-- The claim's reading of the aadhaar rule: the text contains a
    word-bounded match of three groups of four digits, optionally
    space-separated, whose de-spaced form is exactly 12 digits. -/
def ContainsAadhaar (text : String) : Prop :=
  ∃ pre d1 s1 d2 s2 d3 post : List Char,
    text.data = pre ++ d1 ++ s1 ++ d2 ++ s2 ++ d3 ++ post ∧
    d1.length = 4 ∧ d2.length = 4 ∧ d3.length = 4 ∧
    d1.all digitC = true ∧ d2.all digitC = true ∧ d3.all digitC = true ∧
    s1.all isPySpace = true ∧ s2.all isPySpace = true ∧
    (pre = [] ∨ ∃ c, pre.getLast? = some c ∧ isWordChar c = false) ∧
    (post = [] ∨ ∃ c, post.head? = some c ∧ isWordChar c = false) ∧
    (despace (d1 ++ s1 ++ d2 ++ s2 ++ d3)).length = 12


/-- The `rules_to_apply` selection of `validate_text`. -/
def rulesToApply (rules : List Rule) (rule_names : Option (List String)) : List Rule :=
  match rule_names with
  | none => rules
  | some names =>
    if names.isEmpty then rules else rules.filter (fun r => names.contains r.name)

set_option maxRecDepth 8192

/-! ## Helper lemmas -/

theorem countP_add_countP_not {α : Type} (p : α → Bool) (l : List α) :
    l.countP p + l.countP (fun a => !p a) = l.length := by
  induction l with
  | nil => simp
  | cons a l ih =>
    by_cases h : p a = true <;> simp [List.countP_cons, h, ← ih] <;> omega

theorem validateLoop_eq (text : String) (rs : List Rule) (acc : List RuleResult) (p f : Nat) :
    validateLoop text rs acc p f =
      (acc ++ rs.map (applyRule text),
       p + (rs.map (applyRule text)).countP (fun x => x.valid),
       f + (rs.map (applyRule text)).countP (fun x => !x.valid)) := by
  induction rs generalizing acc p f with
  | nil => simp [validateLoop]
  | cons r rs ih =>
    have happ : applyRule text r =
        match r.validate text with
        | .ok result => result
        | .error e =>
          { rule := r.name, valid := false,
            message := "Rule execution failed: " ++ e, details := .errorD e } := rfl
    cases h : r.validate text with
    | ok result =>
      have hval : applyRule text r = result := by rw [happ, h]
      by_cases hv : result.valid = true
      · simp only [validateLoop, h, hv, if_true, ih, List.map_cons, hval,
          List.countP_cons, List.append_assoc, List.singleton_append, Prod.mk.injEq]
        refine ⟨trivial, by simp [hv]; omega, by simp [hv]⟩
      · have hv' : result.valid = false := by simpa using hv
        simp only [validateLoop, h, hv', Bool.false_eq_true, if_false, ih, List.map_cons,
          hval, List.countP_cons, List.append_assoc, List.singleton_append, Prod.mk.injEq]
        refine ⟨trivial, by simp [hv'], by simp [hv']; omega⟩
    | error e =>
      have hval : applyRule text r =
          { rule := r.name, valid := false,
            message := "Rule execution failed: " ++ e, details := .errorD e } := by
        rw [happ, h]
      simp only [validateLoop, h, ih, List.map_cons, hval, List.countP_cons,
        List.append_assoc, List.singleton_append, Prod.mk.injEq]
      refine ⟨trivial, by simp, by simp; omega⟩

theorem validate_text_empty (rules : List Rule) (text : String)
    (rule_names : Option (List String)) (h : (pyStrip text).data.isEmpty = true) :
    validate_text rules text rule_names =
      { valid := false, message := "Empty or whitespace-only text",
        rules_passed := 0, rules_failed := 0, rule_results := [] } := by
  unfold validate_text
  rw [if_pos h]

theorem validate_text_nonempty (rules : List Rule) (text : String)
    (rule_names : Option (List String)) (h : ¬(pyStrip text).data.isEmpty = true) :
    validate_text rules text rule_names =
      { valid :=
          ((rulesToApply rules rule_names).map (applyRule text)).countP (fun x => !x.valid) == 0
        message :=
          "Validation " ++
            (if ((rulesToApply rules rule_names).map (applyRule text)).countP
                  (fun x => !x.valid) == 0 then "passed" else "failed") ++ ": " ++
            toString (((rulesToApply rules rule_names).map (applyRule text)).countP
              (fun x => x.valid)) ++ " passed, " ++
            toString (((rulesToApply rules rule_names).map (applyRule text)).countP
              (fun x => !x.valid)) ++ " failed"
        rules_passed :=
          ((rulesToApply rules rule_names).map (applyRule text)).countP (fun x => x.valid)
        rules_failed :=
          ((rulesToApply rules rule_names).map (applyRule text)).countP (fun x => !x.valid)
        rule_results := (rulesToApply rules rule_names).map (applyRule text) } := by
  unfold validate_text
  rw [if_neg h]
  simp only [validateLoop_eq, List.nil_append, Nat.zero_add]
  rfl

theorem stripNeZero_notIsEmpty {text : String} (h : (pyStrip text).length ≠ 0) :
    ¬(pyStrip text).data.isEmpty = true := by
  intro hc
  exact h (List.isEmpty_iff_length_eq_zero.mp hc)

/-! ## Claims C1–C4, C9, C10 -/

/-- C1 (counterexample): on the empty text the report has `valid = false`
    but `rules_failed = 0`, so `valid == (rules_failed == 0)` fails — the
    claimed equivalence does not hold for every input text. -/
theorem C1_counterexample :
    ((validate_text defaultRules "" none).valid ==
      ((validate_text defaultRules "" none).rules_failed == 0)) = false := by
  decide

/-- C1 (amended): for every rule set, text and rule-name filter the report
    satisfies `rules_passed + rules_failed = len(rule_results)`, and for every
    text whose stripped form is nonempty, `valid` holds iff `rules_failed = 0`
    (the empty-text short-circuit returns `valid = false` with zero failures). -/
theorem C1_amended_invariant (rules : List Rule) (text : String)
    (rule_names : Option (List String)) :
    (validate_text rules text rule_names).rules_passed +
        (validate_text rules text rule_names).rules_failed =
      (validate_text rules text rule_names).rule_results.length ∧
    ((pyStrip text).length ≠ 0 →
      ((validate_text rules text rule_names).valid = true ↔
        (validate_text rules text rule_names).rules_failed = 0)) := by
  by_cases h : (pyStrip text).data.isEmpty = true
  · rw [validate_text_empty rules text rule_names h]
    exact ⟨rfl, fun h2 => absurd h (stripNeZero_notIsEmpty h2)⟩
  · rw [validate_text_nonempty rules text rule_names h]
    refine ⟨?_, fun _ => ?_⟩
    · exact countP_add_countP_not (fun x : RuleResult => x.valid)
        ((rulesToApply rules rule_names).map (applyRule text)) |>.trans (by simp)
    · simp only [beq_iff_eq]

/-- C1 (witness for the amended claim). -/
theorem C1_amended_invariant_witness :
    ((validate_text defaultRules "hello" none).rules_passed +
        (validate_text defaultRules "hello" none).rules_failed =
      (validate_text defaultRules "hello" none).rule_results.length) ∧
    ((pyStrip "hello").length ≠ 0 ∧
      ((validate_text defaultRules "hello" none).valid = true ↔
        (validate_text defaultRules "hello" none).rules_failed = 0)) :=
  ⟨(C1_amended_invariant defaultRules "hello" none).1,
   by decide,
   (C1_amended_invariant defaultRules "hello" none).2 (by decide)⟩

/-- C2: a text whose stripped length is zero short-circuits to the fixed
    report `valid = false`, zero passed/failed, empty `rule_results` — the
    report does not depend on the rules, so no rule is evaluated. -/
theorem C2_empty_text_short_circuit (rules : List Rule) (text : String)
    (rule_names : Option (List String)) (h : (pyStrip text).length = 0) :
    validate_text rules text rule_names =
      { valid := false, message := "Empty or whitespace-only text",
        rules_passed := 0, rules_failed := 0, rule_results := [] } := by
  apply validate_text_empty
  exact List.isEmpty_iff_length_eq_zero.mpr h

/-- C2 (witness). -/
theorem C2_empty_text_short_circuit_witness :
    (pyStrip " \t ").length = 0 ∧
      validate_text defaultRules " \t " none =
        { valid := false, message := "Empty or whitespace-only text",
          rules_passed := 0, rules_failed := 0, rule_results := [] } :=
  ⟨by decide, C2_empty_text_short_circuit defaultRules " \t " none (by decide)⟩

/-- C3: if a rule raises during `validate_text` on non-empty text, the run
    is not aborted: the failing rule contributes a `valid = false` result
    whose message and details carry the error text, every rule before and
    after it is still evaluated in order, and the failure is counted in
    `rules_failed` (which is therefore positive). -/
theorem C3_rule_error_recovery (pre post : List Rule) (r : Rule) (text e : String)
    (hne : (pyStrip text).length ≠ 0) (herr : r.validate text = .error e) :
    (validate_text (pre ++ r :: post) text none).rule_results =
        pre.map (applyRule text) ++
          ({ rule := r.name, valid := false,
             message := "Rule execution failed: " ++ e,
             details := .errorD e } : RuleResult) :: post.map (applyRule text) ∧
      (validate_text (pre ++ r :: post) text none).rules_failed =
        ((pre ++ r :: post).map (applyRule text)).countP (fun x => !x.valid) ∧
      0 < (validate_text (pre ++ r :: post) text none).rules_failed := by
  have h' := stripNeZero_notIsEmpty hne
  rw [validate_text_nonempty _ _ _ h']
  have herrRes : applyRule text r =
      { rule := r.name, valid := false,
        message := "Rule execution failed: " ++ e, details := .errorD e } := by
    simp [applyRule, herr]
  refine ⟨by simp [rulesToApply, herrRes], by simp [rulesToApply], ?_⟩
  simp [rulesToApply, List.countP_append, List.countP_cons, herrRes]

/-- C3 (witness). -/
theorem C3_rule_error_recovery_witness :
    ((pyStrip "hello").length ≠ 0 ∧
      (Rule.mk "boom" "always raises" (fun _ => .error "kaboom")).validate "hello" =
        .error "kaboom") ∧
    ((validate_text ([LengthValidationRule 2 1000] ++
        Rule.mk "boom" "always raises" (fun _ => .error "kaboom") :: []) "hello" none).rule_results =
      [LengthValidationRule 2 1000].map (applyRule "hello") ++
        ({ rule := "boom", valid := false,
           message := "Rule execution failed: " ++ "kaboom",
           details := .errorD "kaboom" } : RuleResult) :: ([] : List Rule).map (applyRule "hello") ∧
      (validate_text ([LengthValidationRule 2 1000] ++
          Rule.mk "boom" "always raises" (fun _ => .error "kaboom") :: []) "hello" none).rules_failed =
        (([LengthValidationRule 2 1000] ++
          Rule.mk "boom" "always raises" (fun _ => .error "kaboom") :: []).map
            (applyRule "hello")).countP (fun x => !x.valid) ∧
      0 < (validate_text ([LengthValidationRule 2 1000] ++
          Rule.mk "boom" "always raises" (fun _ => .error "kaboom") :: []) "hello" none).rules_failed) :=
  ⟨⟨by decide, rfl⟩,
   C3_rule_error_recovery [LengthValidationRule 2 1000] []
     (Rule.mk "boom" "always raises" (fun _ => .error "kaboom")) "hello" "kaboom"
     (by decide) rfl⟩

/-- C4 (counterexample): with a supplied empty `rule_names` list the claim
    predicts that no rule is applied, but the source's falsy test
    `if rule_names:` treats `[]` like `None` and applies every rule. -/
theorem C4_counterexample :
    (validate_text defaultRules "hello" (some [])).rule_results ≠
      (defaultRules.filter (fun r => ([] : List String).contains r.name)).map
        (applyRule "hello") := by
  decide

/-- C4 (amended): on non-empty text, an absent or empty `rule_names` applies
    every rule in engine order, and a non-empty `rule_names` applies exactly
    the rules whose name is in it, preserving engine order, one result per
    applied rule. -/
theorem C4_amended_rule_filter (rules : List Rule) (text : String) (names : List String)
    (hne : (pyStrip text).length ≠ 0) :
    (validate_text rules text none).rule_results = rules.map (applyRule text) ∧
    (names = [] →
      (validate_text rules text (some names)).rule_results = rules.map (applyRule text)) ∧
    (names ≠ [] →
      (validate_text rules text (some names)).rule_results =
        (rules.filter (fun r => names.contains r.name)).map (applyRule text)) := by
  have h' := stripNeZero_notIsEmpty hne
  refine ⟨?_, fun hnil => ?_, fun hne2 => ?_⟩
  · rw [validate_text_nonempty _ _ _ h']
    simp [rulesToApply]
  · rw [validate_text_nonempty _ _ _ h']
    simp [rulesToApply, hnil]
  · rw [validate_text_nonempty _ _ _ h']
    have hni : names.isEmpty = false := by
      cases names with
      | nil => exact absurd rfl hne2
      | cons a l => rfl
    simp [rulesToApply, hni]

/-- C4 (witness for the amended claim). -/
theorem C4_amended_rule_filter_witness :
    (pyStrip "hello").length ≠ 0 ∧
      ((validate_text defaultRules "hello" none).rule_results =
        defaultRules.map (applyRule "hello") ∧
      (["length"] = ([] : List String) →
        (validate_text defaultRules "hello" (some ["length"])).rule_results =
          defaultRules.map (applyRule "hello")) ∧
      (["length"] ≠ ([] : List String) →
        (validate_text defaultRules "hello" (some ["length"])).rule_results =
          (defaultRules.filter (fun r => ["length"].contains r.name)).map (applyRule "hello"))) :=
  ⟨by decide, C4_amended_rule_filter defaultRules "hello" ["length"] (by decide)⟩

/-- C9: with `resize_factor = 1` and every other flag off, `preprocess` is
    the identity on pixel data, whatever the skipped stages would compute. -/
theorem C9_preprocess_identity {Img : Type}
    (autoRotateStage denoiseStage enhanceContrastStage : Img → Img)
    (resizeStage : Img → ℚ → Img) (image : Img) :
    preprocess autoRotateStage denoiseStage enhanceContrastStage resizeStage
      { enhance_contrast := false, denoise := false, resize_factor := 1, auto_rotate := false }
      image = image := by
  simp [preprocess]

/-- C10: on non-empty text, a supplied non-empty `rule_names` naming no rule
    of the engine yields the vacuously valid report: `valid = true`, zero
    passed, zero failed, empty `rule_results`. -/
theorem C10_unknown_rule_names (rules : List Rule) (text : String) (names : List String)
    (hne : (pyStrip text).length ≠ 0) (hnames : names ≠ [])
    (hmiss : ∀ r ∈ rules, r.name ∉ names) :
    validate_text rules text (some names) =
      { valid := true, message := "Validation passed: 0 passed, 0 failed",
        rules_passed := 0, rules_failed := 0, rule_results := [] } := by
  have h' := stripNeZero_notIsEmpty hne
  rw [validate_text_nonempty _ _ _ h']
  have hni : names.isEmpty = false := by
    cases names with
    | nil => exact absurd rfl hnames
    | cons a l => rfl
  have hfilter : rules.filter (fun r => names.contains r.name) = [] :=
    List.filter_eq_nil_iff.mpr (fun r hr => by simpa using hmiss r hr)
  have hrta : rulesToApply rules (some names) = [] := by
    show (if names.isEmpty then rules
      else rules.filter (fun r => names.contains r.name)) = []
    rw [hni]
    simp only [Bool.false_eq_true, if_false]
    exact hfilter
  rw [hrta]
  show ({ valid := _, message := _, rules_passed := _, rules_failed := _,
          rule_results := _ } : Report) = _
  norm_num
  rfl

/-- C10 (witness). -/
theorem C10_unknown_rule_names_witness :
    ((pyStrip "hello").length ≠ 0 ∧ ["nope"] ≠ ([] : List String) ∧
      (∀ r ∈ defaultRules, r.name ∉ (["nope"] : List String))) ∧
    validate_text defaultRules "hello" (some ["nope"]) =
      { valid := true, message := "Validation passed: 0 passed, 0 failed",
        rules_passed := 0, rules_failed := 0, rule_results := [] } :=
  ⟨⟨by decide, by decide, by decide⟩,
   C10_unknown_rule_names defaultRules "hello" ["nope"] (by decide) (by decide) (by decide)⟩

/-! ## Claims C6 and C8: concrete end-to-end evaluations -/

/-- C6: on the blocks `"Name: John Smith"`, `"Age 34 years"` with field
    definitions `name` (keywords `["name"]`, type text) and `age`
    (keywords `["age"]`, pattern `\d{1,3}`), `extract_fields` returns
    exactly the two fields `name ↦ "John Smith"` and `age ↦ "34"`, in
    that order. -/
theorem C6_extraction_example :
    (extract_fields
        [{ text := "Name: John Smith" }, { text := "Age 34 years" }]
        [{ name := "name", keywords := some ["name"], data_type := some "text" },
         { name := "age", keywords := some ["age"],
           pattern := some (.reps digitC 1 (some 3)) }]).map
      (fun ef => (ef.field_name, ef.value)) =
    [("name", "John Smith"), ("age", "34")] := by
  decide

/-- C8: the date rule on `"Date: 15/08/1990"` is valid with exactly one
    found date, normalized to `"1990-08-15"`, whose original matched
    substring is `"15/08/1990"` (parsed by the `%d/%m/%Y` format). -/
theorem C8_date_rule_example :
    (DateValidationRule.validateFn "Date: 15/08/1990").valid = true ∧
    (DateValidationRule.validateFn "Date: 15/08/1990").details =
      .datesD [{ original := "15/08/1990", parsed := "1990-08-15", format := "%d/%m/%Y" }] := by
  constructor
  · decide
  · decide


/-! ## Claim C5: best-confidence selection -/

theorem typeConfidence_pos (data_type : String) : (0 : ℚ) < typeConfidence data_type := by
  unfold typeConfidence
  split
  · decide
  · split
    · decide
    · split
      · decide
      · decide

theorem extract_value_pos (text : String) (ks : List String) (pat : Option Re)
    (dt : String) (v : String) (c : ℚ)
    (h : extract_value_after_keyword text ks pat dt = (some v, c)) : 0 < c := by
  induction ks with
  | nil => simp [extract_value_after_keyword] at h
  | cons k rest ih =>
    simp only [extract_value_after_keyword] at h
    split at h
    · split at h
      · -- explicit pattern
        split at h
        · injection h with h1 h2
          rw [← h2]
          decide
        · exact ih h
      · -- no explicit pattern
        split at h
        · -- data-type patterns
          split at h
          · split at h
            · injection h with h1 h2
              rw [← h2]
              exact typeConfidence_pos dt
            · exact ih h
          · exact ih h
        · -- text word heuristic
          split at h
          · exact ih h
          · split at h
            · exact ih h
            · injection h with h1 h2
              rw [← h2]
              decide
    · exact ih h

theorem candidates_pos (field : FieldDefinition) (blocks : List TextBlock) :
    ∀ e ∈ candidates field blocks, 0 < e.confidence := by
  intro e he
  obtain ⟨b, _, hcand⟩ := List.mem_filterMap.mp he
  rw [blockCandidate] at hcand
  split at hcand
  · split at hcand
    · split at hcand
      · exact absurd hcand (by simp)
      · rename_i vo c heq hne
        have hev : extract_value_after_keyword b.text field.keywords field.pattern
            field.data_type = (some vo, c) := heq
        have hc := extract_value_pos b.text field.keywords field.pattern field.data_type
          vo c hev
        have he' : e.confidence = c := by
          have := Option.some.inj hcand
          rw [← this]
        rw [he']
        exact hc
    · exact absurd hcand (by simp)
  · exact absurd hcand (by simp)

theorem selLoop_of_le (cs : List ExtractedField) (best : Option ExtractedField) (bc : ℚ)
    (h : ∀ e ∈ cs, e.confidence ≤ bc) : selLoop cs best bc = best := by
  induction cs with
  | nil => rfl
  | cons e es ih =>
    rw [selLoop, if_neg (not_lt.mpr (h e (List.mem_cons_self e es)))]
    exact ih (fun x hx => h x (List.mem_cons_of_mem e hx))

theorem selLoop_first_max (cs : List ExtractedField) :
    ∀ (best : Option ExtractedField) (bc : ℚ), (∃ e ∈ cs, bc < e.confidence) →
    ∃ ef l1 l2, selLoop cs best bc = some ef ∧ cs = l1 ++ ef :: l2 ∧
      bc < ef.confidence ∧ (∀ x ∈ l1, x.confidence < ef.confidence) ∧
      (∀ x ∈ cs, x.confidence ≤ ef.confidence) := by
  induction cs with
  | nil =>
    rintro best bc ⟨e, he, -⟩
    exact absurd he (List.not_mem_nil e)
  | cons e es ih =>
    intro best bc hex
    by_cases hbc : bc < e.confidence
    · by_cases hex2 : ∃ x ∈ es, e.confidence < x.confidence
      · obtain ⟨ef, l1, l2, hsel, hdec, hgt, hl1, hmax⟩ := ih (some e) e.confidence hex2
        refine ⟨ef, e :: l1, l2, ?_, by simp [hdec], lt_trans hbc hgt, ?_, ?_⟩
        · rw [selLoop, if_pos hbc]
          exact hsel
        · intro x hx
          rcases List.mem_cons.mp hx with rfl | hx'
          · exact hgt
          · exact hl1 x hx'
        · intro x hx
          rcases List.mem_cons.mp hx with rfl | hx'
          · exact le_of_lt hgt
          · exact hmax x hx'
      · push_neg at hex2
        refine ⟨e, [], es, ?_, by simp, hbc, by simp, ?_⟩
        · rw [selLoop, if_pos hbc]
          exact selLoop_of_le es (some e) e.confidence hex2
        · intro x hx
          rcases List.mem_cons.mp hx with rfl | hx'
          · exact le_refl _
          · exact hex2 x hx'
    · obtain ⟨x0, hx0, hbc0⟩ := hex
      have hx0' : x0 ∈ es := by
        rcases List.mem_cons.mp hx0 with rfl | h'
        · exact absurd hbc0 hbc
        · exact h'
      obtain ⟨ef, l1, l2, hsel, hdec, hgt, hl1, hmax⟩ := ih best bc ⟨x0, hx0', hbc0⟩
      refine ⟨ef, e :: l1, l2, ?_, by simp [hdec], hgt, ?_, ?_⟩
      · rw [selLoop, if_neg hbc]
        exact hsel
      · intro x hx
        rcases List.mem_cons.mp hx with rfl | hx'
        · exact lt_of_le_of_lt (not_lt.mp hbc) hgt
        · exact hl1 x hx'
      · intro x hx
        rcases List.mem_cons.mp hx with rfl | hx'
        · exact le_of_lt (lt_of_le_of_lt (not_lt.mp hbc) hgt)
        · exact hmax x hx'

theorem extractBlocksLoop_eq_selLoop (field : FieldDefinition) (bs : List TextBlock) :
    ∀ (best : Option ExtractedField) (bc : ℚ),
      extractBlocksLoop field bs best bc = selLoop (candidates field bs) best bc := by
  induction bs with
  | nil => intro best bc; rfl
  | cons b bs ih =>
    intro best bc
    rw [candidates, List.filterMap_cons]
    rcases hev : extract_value_after_keyword b.text field.keywords field.pattern
      field.data_type with ⟨vo, c⟩
    by_cases hkw : field.keywords.any
        (fun k => containsSub (pyLower k).data (pyLower b.text).data) = true
    · cases vo with
      | none =>
        simp only [extractBlocksLoop, blockCandidate, hkw, if_true, hev]
        exact ih best bc
      | some v =>
        by_cases hemp : v.data.isEmpty = true
        · simp only [extractBlocksLoop, blockCandidate, hkw, if_true, hev, hemp,
            Bool.true_eq_false, not_true, false_and, if_false, ite_true, ite_false]
          exact ih best bc
        · have hempf : v.data.isEmpty = false := by simpa using hemp
          by_cases hlt : bc < c
          · simp only [extractBlocksLoop, blockCandidate, hkw, if_true, hev, hempf,
              Bool.false_eq_true, not_false_iff, true_and, hlt, if_true,
              ite_true, ite_false, selLoop]
            exact ih _ _
          · simp only [extractBlocksLoop, blockCandidate, hkw, if_true, hev, hempf,
              Bool.false_eq_true, not_false_iff, true_and, hlt, if_false,
              ite_true, ite_false, selLoop]
            exact ih best bc
    · simp only [extractBlocksLoop, blockCandidate, hkw, Bool.false_eq_true, if_false,
        ite_false]
      exact ih best bc

/-- C5: in `_extract_single_field`, the returned field (if any) is the
    first candidate of maximal confidence over the blocks in scan order:
    every candidate's confidence is bounded by it and every earlier
    candidate is strictly below it (so equal-confidence ties keep the first
    block); there is no result exactly when no block yields a value, and a
    field with no result is omitted from `extract_fields` entirely. -/
theorem C5_best_confidence_selection (field : FieldDefinition) (blocks : List TextBlock) :
    (extract_single_field field blocks = none ↔ candidates field blocks = []) ∧
    (∀ ef, extract_single_field field blocks = some ef →
      (∀ e ∈ candidates field blocks, e.confidence ≤ ef.confidence) ∧
      ∃ l1 l2, candidates field blocks = l1 ++ ef :: l2 ∧
        ∀ e ∈ l1, e.confidence < ef.confidence) ∧
    (∀ (fdefs : List FieldDefInput) (ef : ExtractedField),
      ef ∈ extract_fields blocks fdefs ↔
        ∃ fd ∈ fdefs, extract_single_field (toFieldDefinition fd) blocks = some ef) := by
  have h01 : mkRat 0 1 = (0 : ℚ) := by decide
  have hsel : extract_single_field field blocks =
      selLoop (candidates field blocks) none 0 := by
    rw [extract_single_field, extractBlocksLoop_eq_selLoop, h01]
  have hpos := candidates_pos field blocks
  refine ⟨⟨?_, ?_⟩, ?_, ?_⟩
  · intro hn
    cases hcs : candidates field blocks with
    | nil => rfl
    | cons e es =>
      have hmem : e ∈ candidates field blocks := by
        rw [hcs]
        exact List.mem_cons_self e es
      obtain ⟨ef, l1, l2, hsel2, -, -, -, -⟩ :=
        selLoop_first_max (candidates field blocks) none 0 ⟨e, hmem, hpos e hmem⟩
      rw [hsel, hsel2] at hn
      exact Option.noConfusion hn
  · intro hcs
    rw [hsel, hcs]
    rfl
  · intro ef hef
    have hne : candidates field blocks ≠ [] := by
      intro hcs
      rw [hsel, hcs] at hef
      exact Option.noConfusion hef
    obtain ⟨e, hmem⟩ := List.exists_mem_of_ne_nil (candidates field blocks) hne
    obtain ⟨ef', l1, l2, hsel2, hdec, -, hl1, hmax⟩ :=
      selLoop_first_max (candidates field blocks) none 0 ⟨e, hmem, hpos e hmem⟩
    have hee : ef = ef' := by
      rw [hsel, hsel2] at hef
      exact (Option.some.inj hef).symm
    subst hee
    exact ⟨hmax, l1, l2, hdec, hl1⟩
  · intro fdefs ef
    rw [extract_fields, List.mem_filterMap]
    constructor
    · rintro ⟨f, hf, hex⟩
      obtain ⟨fd, hfd, rfl⟩ := List.mem_map.mp hf
      exact ⟨fd, hfd, hex⟩
    · rintro ⟨fd, hfd, hex⟩
      exact ⟨toFieldDefinition fd, List.mem_map.mpr ⟨fd, hfd, rfl⟩, hex⟩

/-- C5 (witness): the theorem applied to a concrete field and block list. -/
theorem C5_best_confidence_selection_witness :
    extract_single_field
      { name := "f", keywords := ["k"], pattern := none,
        data_type := "text", required := false }
      [{ text := "zzz" }] = none :=
  (C5_best_confidence_selection
    { name := "f", keywords := ["k"], pattern := none,
      data_type := "text", required := false }
    [{ text := "zzz" }]).1.mpr (by decide)

/-! ## Claim C7: the aadhaar rule -/

theorem reTest_false (p : Char → Bool) (c : Char) : reTest false p c = p c := by
  simp [reTest]

theorem digit_not_space {c : Char} (h : digitC c = true) : isPySpace c = false := by
  have hn : 48 ≤ c.toNat ∧ c.toNat ≤ 57 := by
    simpa [digitC] using h
  apply Bool.eq_false_iff.mpr
  intro hs
  simp only [isPySpace, Bool.or_eq_true, Bool.and_eq_true, decide_eq_true_eq] at hs
  omega

theorem space_not_digit {c : Char} (h : isPySpace c = true) : digitC c = false := by
  by_cases hd : digitC c = true
  · rw [digit_not_space hd] at h
    exact Bool.noConfusion h
  · simpa using hd

theorem digit_isWord {c : Char} (h : digitC c = true) : isWordChar c = true := by
  have hn : 48 ≤ c.toNat ∧ c.toNat ≤ 57 := by
    simpa [digitC] using h
  simp only [isWordChar, Bool.or_eq_true, Bool.and_eq_true, decide_eq_true_eq]
  omega

theorem runL_le_length (ic : Bool) (p : Char → Bool) (l : List Char) :
    runL ic p l ≤ l.length := by
  induction l with
  | nil => simp [runL]
  | cons c cs ih =>
    rw [runL]
    split
    · simpa using ih
    · simp

theorem runL_chars (ic : Bool) (p : Char → Bool) (l : List Char) :
    ∀ i < runL ic p l, ∃ c, l[i]? = some c ∧ reTest ic p c = true := by
  induction l with
  | nil => simp [runL]
  | cons c cs ih =>
    intro i hi
    rw [runL] at hi
    split at hi
    · cases i with
      | zero => exact ⟨c, by simp, by assumption⟩
      | succ j =>
        obtain ⟨d, hd, hp⟩ := ih j (by omega)
        exact ⟨d, by simpa using hd, hp⟩
    · omega

theorem runL_stop (ic : Bool) (p : Char → Bool) (l : List Char) :
    ∀ c, l[runL ic p l]? = some c → reTest ic p c = false := by
  induction l with
  | nil => simp
  | cons c cs ih =>
    intro d hd
    rw [runL] at hd
    split at hd
    · exact ih d (by simpa using hd)
    · simp only [List.getElem?_cons_zero, Option.some.injEq] at hd
      subst hd
      simpa using ‹¬reTest ic p c = true›

theorem runL_ge (ic : Bool) (p : Char → Bool) (l : List Char) (n : Nat)
    (h : ∀ i < n, ∃ c, l[i]? = some c ∧ reTest ic p c = true) : n ≤ runL ic p l := by
  induction l generalizing n with
  | nil =>
    cases n with
    | zero => simp
    | succ m =>
      obtain ⟨c, hc, -⟩ := h 0 (by omega)
      simp at hc
  | cons c cs ih =>
    cases n with
    | zero => simp
    | succ m =>
      obtain ⟨c0, hc0, hp0⟩ := h 0 (by omega)
      simp only [List.getElem?_cons_zero, Option.some.injEq] at hc0
      subst hc0
      rw [runL, if_pos hp0]
      have := ih m (fun i hi => by
        obtain ⟨d, hd, hp⟩ := h (i + 1) (by omega)
        exact ⟨d, by simpa using hd, hp⟩)
      omega

theorem runL_le (ic : Bool) (p : Char → Bool) (l : List Char) (n : Nat) (c : Char)
    (hc : l[n]? = some c) (hp : reTest ic p c = false) : runL ic p l ≤ n := by
  by_contra hcon
  obtain ⟨d, hd, hpd⟩ := runL_chars ic p l n (by omega)
  rw [hc] at hd
  cases hd
  rw [hpd] at hp
  exact Bool.noConfusion hp

theorem runL_eq (ic : Bool) (p : Char → Bool) (l : List Char) (n : Nat)
    (h : ∀ i < n, ∃ c, l[i]? = some c ∧ reTest ic p c = true)
    (hstop : l[n]? = none ∨ ∃ c, l[n]? = some c ∧ reTest ic p c = false) :
    runL ic p l = n := by
  have h1 := runL_ge ic p l n h
  rcases hstop with hn | ⟨c, hc, hp⟩
  · have h2 := runL_le_length ic p l
    have h3 : l.length ≤ n := by
      by_contra hcon
      rw [List.getElem?_eq_none_iff] at hn
      omega
    omega
  · have h2 := runL_le ic p l n c hc hp
    omega

theorem tryDown_lt_min {α : Type} (k : Nat → Option α) (base min j : Nat) (h : j < min) :
    tryDown k base min j = none := by
  cases j with
  | zero => rw [tryDown, if_pos h]
  | succ m => rw [tryDown, if_pos h]

theorem tryDown_exact {α : Type} (k : Nat → Option α) (base n : Nat) :
    tryDown k base n n = k (base + n) := by
  cases n with
  | zero => simp [tryDown]
  | succ m =>
    rw [tryDown, if_neg (lt_irrefl (m + 1))]
    cases hk : k (base + (m + 1)) with
    | some r => simp
    | none => simp [tryDown_lt_min _ _ _ _ (Nat.lt_succ_self m)]

theorem tryDown_top {α : Type} (k : Nat → Option α) (base : Nat) :
    ∀ j, (∀ i < j, k (base + i) = none) → tryDown k base 0 j = k (base + j) := by
  intro j
  induction j with
  | zero => intro _; simp [tryDown]
  | succ m ih =>
    intro h
    rw [tryDown, if_neg (by omega)]
    cases hk : k (base + (m + 1)) with
    | some r => simp
    | none =>
      have h' : tryDown k base 0 m = none := by
        rw [ih (fun i hi => h i (by omega))]
        exact h m (by omega)
      simp [h']

theorem mtch_repsExact {α : Type} (s : List Char) (ic : Bool) (p : Char → Bool)
    (n pos : Nat) (g : Option (Nat × Nat)) (k : Nat → Option (Nat × Nat) → Option α) :
    mtch s ic (.reps p n (some n)) pos g k =
      if n ≤ runLen ic p s pos then k (pos + n) g else none := by
  show tryDown (fun pos2 => k pos2 g) pos n (Nat.min (runLen ic p s pos) n) = _
  by_cases h : n ≤ runLen ic p s pos
  · have hm : Nat.min (runLen ic p s pos) n = n := by
      unfold Nat.min
      exact inf_eq_right.mpr h
    rw [hm, tryDown_exact, if_pos h]
  · have hm : Nat.min (runLen ic p s pos) n = runLen ic p s pos := by
      unfold Nat.min
      exact inf_eq_left.mpr (by omega)
    rw [hm, if_neg h]
    exact tryDown_lt_min _ _ _ _ (by omega)

theorem mtch_repsStar {α : Type} (s : List Char) (ic : Bool) (p : Char → Bool)
    (pos : Nat) (g : Option (Nat × Nat)) (k : Nat → Option (Nat × Nat) → Option α)
    (h : ∀ j, j < runLen ic p s pos → k (pos + j) g = none) :
    mtch s ic (.reps p 0 none) pos g k = k (pos + runLen ic p s pos) g := by
  show tryDown (fun pos2 => k pos2 g) pos 0 (runLen ic p s pos) = _
  exact tryDown_top _ _ _ h

theorem runLen_chars (ic : Bool) (p : Char → Bool) (s : List Char) (pos : Nat) :
    ∀ i < runLen ic p s pos, ∃ c, s[pos + i]? = some c ∧ reTest ic p c = true := by
  intro i hi
  obtain ⟨c, hc, hp⟩ := runL_chars ic p (s.drop pos) i hi
  refine ⟨c, ?_, hp⟩
  rw [← List.getElem?_drop]
  exact hc

theorem runLen_ge (ic : Bool) (p : Char → Bool) (s : List Char) (pos n : Nat)
    (h : ∀ i < n, ∃ c, s[pos + i]? = some c ∧ reTest ic p c = true) :
    n ≤ runLen ic p s pos := by
  apply runL_ge
  intro i hi
  obtain ⟨c, hc, hp⟩ := h i hi
  refine ⟨c, ?_, hp⟩
  rw [List.getElem?_drop]
  exact hc

theorem runLen_eq (ic : Bool) (p : Char → Bool) (s : List Char) (pos n : Nat)
    (h : ∀ i < n, ∃ c, s[pos + i]? = some c ∧ reTest ic p c = true)
    (hstop : s[pos + n]? = none ∨ ∃ c, s[pos + n]? = some c ∧ reTest ic p c = false) :
    runLen ic p s pos = n := by
  apply runL_eq
  · intro i hi
    obtain ⟨c, hc, hp⟩ := h i hi
    refine ⟨c, ?_, hp⟩
    rw [List.getElem?_drop]
    exact hc
  · rcases hstop with hn | ⟨c, hc, hp⟩
    · left
      rw [List.getElem?_drop]
      exact hn
    · right
      refine ⟨c, ?_, hp⟩
      rw [List.getElem?_drop]
      exact hc

theorem runLen_zero_of (ic : Bool) (p : Char → Bool) (s : List Char) (pos : Nat)
    (c : Char) (hc : s[pos]? = some c) (hp : reTest ic p c = false) :
    runLen ic p s pos = 0 := by
  have h := runL_le ic p (s.drop pos) 0 c
    (by rw [List.getElem?_drop]; simpa using hc) hp
  exact Nat.le_zero.mp h

theorem aadhaarTail1 (s : List Char) (x : Nat) (g : Option (Nat × Nat)) :
    mtch s false (.seq (.reps digitC 4 (some 4)) .wb) x g
      (fun e g' => some (e, g')) =
      if 4 ≤ dRun s x then
        (if wbAt s (x + 4) then some (x + 4, g) else none)
      else none := by
  show mtch s false (.reps digitC 4 (some 4)) x g
      (fun p2 g2 => mtch s false .wb p2 g2 (fun e g' => some (e, g'))) = _
  rw [mtch_repsExact]
  rfl

theorem aadhaarTail2 (s : List Char) (x : Nat) (g : Option (Nat × Nat)) :
    mtch s false (.seq (.reps isPySpace 0 none) (.seq (.reps digitC 4 (some 4)) .wb)) x g
      (fun e g' => some (e, g')) =
      if 4 ≤ dRun s (x + wRun s x) then
        (if wbAt s (x + wRun s x + 4) then some (x + wRun s x + 4, g) else none)
      else none := by
  show mtch s false (.reps isPySpace 0 none) x g
      (fun p2 g2 => mtch s false (.seq (.reps digitC 4 (some 4)) .wb) p2 g2
        (fun e g' => some (e, g'))) = _
  rw [mtch_repsStar]
  · simp only [aadhaarTail1]
    rfl
  · intro j hj
    simp only [aadhaarTail1]
    obtain ⟨c, hc, hp⟩ := runLen_chars false isPySpace s x j hj
    rw [reTest_false] at hp
    have hd : dRun s (x + j) = 0 :=
      runLen_zero_of false digitC s (x + j) c hc
        (by rw [reTest_false]; exact space_not_digit hp)
    rw [if_neg (by rw [hd]; omega)]

theorem aadhaarTail3 (s : List Char) (x : Nat) (g : Option (Nat × Nat)) :
    mtch s false (.seq (.reps digitC 4 (some 4))
        (.seq (.reps isPySpace 0 none) (.seq (.reps digitC 4 (some 4)) .wb))) x g
      (fun e g' => some (e, g')) =
      if 4 ≤ dRun s x then
        (if 4 ≤ dRun s (x + 4 + wRun s (x + 4)) then
          (if wbAt s (x + 4 + wRun s (x + 4) + 4) then
            some (x + 4 + wRun s (x + 4) + 4, g)
          else none)
        else none)
      else none := by
  show mtch s false (.reps digitC 4 (some 4)) x g
      (fun p2 g2 =>
        mtch s false (.seq (.reps isPySpace 0 none)
          (.seq (.reps digitC 4 (some 4)) .wb)) p2 g2
          (fun e g' => some (e, g'))) = _
  rw [mtch_repsExact]
  simp only [aadhaarTail2]
  rfl

theorem aadhaarTail4 (s : List Char) (x : Nat) (g : Option (Nat × Nat)) :
    mtch s false (.seq (.reps isPySpace 0 none) (.seq (.reps digitC 4 (some 4))
        (.seq (.reps isPySpace 0 none) (.seq (.reps digitC 4 (some 4)) .wb)))) x g
      (fun e g' => some (e, g')) =
      if 4 ≤ dRun s (x + wRun s x) then
        (if 4 ≤ dRun s (x + wRun s x + 4 + wRun s (x + wRun s x + 4)) then
          (if wbAt s (x + wRun s x + 4 + wRun s (x + wRun s x + 4) + 4) then
            some (x + wRun s x + 4 + wRun s (x + wRun s x + 4) + 4, g)
          else none)
        else none)
      else none := by
  show mtch s false (.reps isPySpace 0 none) x g
      (fun p2 g2 =>
        mtch s false (.seq (.reps digitC 4 (some 4))
          (.seq (.reps isPySpace 0 none) (.seq (.reps digitC 4 (some 4)) .wb))) p2 g2
          (fun e g' => some (e, g'))) = _
  rw [mtch_repsStar]
  · simp only [aadhaarTail3]
    rfl
  · intro j hj
    simp only [aadhaarTail3]
    obtain ⟨c, hc, hp⟩ := runLen_chars false isPySpace s x j hj
    rw [reTest_false] at hp
    have hd : dRun s (x + j) = 0 :=
      runLen_zero_of false digitC s (x + j) c hc
        (by rw [reTest_false]; exact space_not_digit hp)
    rw [if_neg (by rw [hd]; omega)]

theorem aadhaarTail5 (s : List Char) (x : Nat) (g : Option (Nat × Nat)) :
    mtch s false (.seq (.reps digitC 4 (some 4))
        (.seq (.reps isPySpace 0 none) (.seq (.reps digitC 4 (some 4))
          (.seq (.reps isPySpace 0 none) (.seq (.reps digitC 4 (some 4)) .wb))))) x g
      (fun e g' => some (e, g')) =
      if 4 ≤ dRun s x then
        (if 4 ≤ dRun s (aPos1 s x) then
          (if 4 ≤ dRun s (aPos2 s x) then
            (if wbAt s (aadhaarEnd s x) then some (aadhaarEnd s x, g) else none)
          else none)
        else none)
      else none := by
  show mtch s false (.reps digitC 4 (some 4)) x g
      (fun p2 g2 =>
        mtch s false (.seq (.reps isPySpace 0 none) (.seq (.reps digitC 4 (some 4))
          (.seq (.reps isPySpace 0 none) (.seq (.reps digitC 4 (some 4)) .wb)))) p2 g2
          (fun e g' => some (e, g'))) = _
  rw [mtch_repsExact]
  simp only [aadhaarTail4]
  rfl

theorem hitAt_aadhaar (s : List Char) (pos : Nat) :
    hitAt aadhaarRe false s pos =
      if aadhaarCond s pos then some (aadhaarEnd s pos, none) else none := by
  show (if wbAt s pos then
      mtch s false (.seq (.reps digitC 4 (some 4))
        (.seq (.reps isPySpace 0 none) (.seq (.reps digitC 4 (some 4))
          (.seq (.reps isPySpace 0 none) (.seq (.reps digitC 4 (some 4)) .wb)))))
        pos none (fun e g' => some (e, g'))
    else none) = _
  by_cases h1 : wbAt s pos = true
  · rw [if_pos h1, aadhaarTail5]
    by_cases h2 : 4 ≤ dRun s pos
    · rw [if_pos h2]
      by_cases h3 : 4 ≤ dRun s (aPos1 s pos)
      · rw [if_pos h3]
        by_cases h4 : 4 ≤ dRun s (aPos2 s pos)
        · rw [if_pos h4]
          by_cases h5 : wbAt s (aadhaarEnd s pos) = true
          · rw [if_pos h5, if_pos ⟨h1, h2, h3, h4, h5⟩]
          · rw [if_neg h5, if_neg (by intro hc; exact h5 hc.2.2.2.2)]
        · rw [if_neg h4, if_neg (by intro hc; exact h4 hc.2.2.2.1)]
      · rw [if_neg h3, if_neg (by intro hc; exact h3 hc.2.2.1)]
    · rw [if_neg h2, if_neg (by intro hc; exact h2 hc.2.1)]
  · rw [if_neg h1, if_neg (by intro hc; exact h1 hc.1)]

theorem take_runL_all (ic : Bool) (p : Char → Bool) (l : List Char) (n : Nat)
    (h : n ≤ runL ic p l) : ∀ c ∈ l.take n, reTest ic p c = true := by
  induction l generalizing n with
  | nil => simp
  | cons a l ih =>
    cases n with
    | zero => simp
    | succ m =>
      rw [runL] at h
      split at h
      · intro c hc
        rcases List.mem_cons.mp (by simpa using hc) with rfl | hc'
        · assumption
        · exact ih m (by omega) c hc'
      · omega

theorem despace_all_digit (l : List Char) (h : ∀ c ∈ l, digitC c = true) :
    despace l = l := by
  apply List.filter_eq_self.mpr
  intro c hc
  rw [digit_not_space (h c hc)]
  rfl

theorem despace_all_space (l : List Char) (h : ∀ c ∈ l, isPySpace c = true) :
    despace l = [] := by
  apply List.filter_eq_nil_iff.mpr
  intro c hc
  rw [h c hc]
  simp

theorem drop_drop' (s : List Char) (m n : Nat) : (s.drop m).drop n = s.drop (m + n) :=
  List.drop_drop n m s

theorem runLen_le_suffix_length (ic : Bool) (p : Char → Bool) (s : List Char) (pos : Nat) :
    runLen ic p s pos ≤ (s.drop pos).length :=
  runL_le_length ic p (s.drop pos)

theorem aadhaar_seg_decomp (s : List Char) (pos : Nat) :
    subSlice s pos (aadhaarEnd s pos) =
      (s.drop pos).take 4 ++
        ((s.drop (pos + 4)).take (wRun s (pos + 4)) ++
          ((s.drop (aPos1 s pos)).take 4 ++
            ((s.drop (aPos1 s pos + 4)).take (wRun s (aPos1 s pos + 4)) ++
              (s.drop (aPos2 s pos)).take 4))) := by
  have he : aadhaarEnd s pos - pos =
      4 + (wRun s (pos + 4) + (4 + (wRun s (aPos1 s pos + 4) + 4))) := by
    unfold aadhaarEnd aPos2 aPos1
    omega
  unfold subSlice
  rw [he, List.take_add, drop_drop', List.take_add, drop_drop', List.take_add,
    drop_drop', List.take_add, drop_drop']
  rfl

theorem take_digits_len (s : List Char) (x : Nat) (h : 4 ≤ dRun s x) :
    ((s.drop x).take 4).length = 4 := by
  have hlen := runLen_le_suffix_length false digitC s x
  rw [List.length_take]
  have : 4 ≤ (s.drop x).length := by
    unfold dRun at h
    unfold runLen at h hlen
    omega
  omega

theorem take_digits_all (s : List Char) (x : Nat) (h : 4 ≤ dRun s x) :
    ∀ c ∈ (s.drop x).take 4, digitC c = true := by
  intro c hc
  have := take_runL_all false digitC (s.drop x) 4 h c hc
  rwa [reTest_false] at this

theorem take_spaces_all (s : List Char) (x : Nat) :
    ∀ c ∈ (s.drop x).take (wRun s x), isPySpace c = true := by
  intro c hc
  have := take_runL_all false isPySpace (s.drop x) (wRun s x) (le_refl _) c hc
  rwa [reTest_false] at this

theorem aadhaar_match_shape (s : List Char) (pos : Nat) (h : aadhaarCond s pos) :
    (despace (subSlice s pos (aadhaarEnd s pos))).length = 12 ∧
      pyIsDigit (despace (subSlice s pos (aadhaarEnd s pos))) = true := by
  obtain ⟨h1, h2, h3, h4, h5⟩ := h
  rw [aadhaar_seg_decomp]
  unfold despace
  rw [List.filter_append, List.filter_append, List.filter_append, List.filter_append]
  have e1 : List.filter (fun c => !isPySpace c) ((s.drop pos).take 4) = (s.drop pos).take 4 :=
    despace_all_digit _ (take_digits_all s pos h2)
  have e2 : List.filter (fun c => !isPySpace c)
      ((s.drop (pos + 4)).take (wRun s (pos + 4))) = [] :=
    despace_all_space _ (take_spaces_all s (pos + 4))
  have e3 : List.filter (fun c => !isPySpace c) ((s.drop (aPos1 s pos)).take 4) =
      (s.drop (aPos1 s pos)).take 4 :=
    despace_all_digit _ (take_digits_all s (aPos1 s pos) h3)
  have e4 : List.filter (fun c => !isPySpace c)
      ((s.drop (aPos1 s pos + 4)).take (wRun s (aPos1 s pos + 4))) = [] :=
    despace_all_space _ (take_spaces_all s (aPos1 s pos + 4))
  have e5 : List.filter (fun c => !isPySpace c) ((s.drop (aPos2 s pos)).take 4) =
      (s.drop (aPos2 s pos)).take 4 :=
    despace_all_digit _ (take_digits_all s (aPos2 s pos) h4)
  rw [e1, e2, e3, e4, e5, List.nil_append, List.nil_append]
  constructor
  · rw [List.length_append, List.length_append,
      take_digits_len s pos h2, take_digits_len s (aPos1 s pos) h3,
      take_digits_len s (aPos2 s pos) h4]
  · unfold pyIsDigit
    have hall : ∀ c ∈ (s.drop pos).take 4 ++
        ((s.drop (aPos1 s pos)).take 4 ++ (s.drop (aPos2 s pos)).take 4),
        digitC c = true := by
      intro c hc
      rcases List.mem_append.mp hc with hc1 | hc2
      · exact take_digits_all s pos h2 c hc1
      · rcases List.mem_append.mp hc2 with hc3 | hc4
        · exact take_digits_all s (aPos1 s pos) h3 c hc3
        · exact take_digits_all s (aPos2 s pos) h4 c hc4
    have hne : ((s.drop pos).take 4 ++
        ((s.drop (aPos1 s pos)).take 4 ++ (s.drop (aPos2 s pos)).take 4)).isEmpty = false := by
      have hlen4 := take_digits_len s pos h2
      rcases hq : (s.drop pos).take 4 with _ | ⟨a, l⟩
      · rw [hq] at hlen4
        simp at hlen4
      · rw [List.cons_append]
        rfl
    simp only [hne, Bool.not_false, Bool.true_and, List.all_eq_true]
    exact hall

theorem findAll_aadhaar_shape (s : List Char) :
    ∀ (fuel pos : Nat), ∀ m ∈ findAllFrom aadhaarRe s pos fuel,
      (despace m).length = 12 ∧ pyIsDigit (despace m) = true := by
  intro fuel
  induction fuel with
  | zero =>
    intro pos m hm
    simp [findAllFrom] at hm
  | succ f ih =>
    intro pos m hm
    rw [findAllFrom] at hm
    cases hh : hitAt aadhaarRe false s pos with
    | none =>
      simp only [hh] at hm
      by_cases hlt : pos < s.length
      · rw [if_pos hlt] at hm
        exact ih _ m hm
      · rw [if_neg hlt] at hm
        exact absurd hm (List.not_mem_nil m)
    | some eg =>
      obtain ⟨e, g⟩ := eg
      simp only [hh] at hm
      have hcond : aadhaarCond s pos ∧ e = aadhaarEnd s pos := by
        rw [hitAt_aadhaar] at hh
        split at hh
        · refine ⟨by assumption, ?_⟩
          injection hh with h1
          injection h1 with h2 h3
          exact h2.symm
        · exact absurd hh (by simp)
      rcases List.mem_cons.mp hm with rfl | hm'
      · rw [hcond.2]
        exact aadhaar_match_shape s pos hcond.1
      · exact ih _ m hm'

theorem aadhaar_valid_iff_ne_nil (text : String) :
    (AadhaarValidationRule.validateFn text).valid = true ↔
      findAll aadhaarRe text.data ≠ [] := by
  show (findAll aadhaarRe text.data).any (fun m =>
    (despace m).length == 12 && pyIsDigit (despace m)) = true ↔ _
  rw [List.any_eq_true]
  constructor
  · rintro ⟨m, hm, -⟩ hnil
    rw [hnil] at hm
    exact absurd hm (List.not_mem_nil m)
  · intro hne
    obtain ⟨m, hm⟩ := List.exists_mem_of_ne_nil _ hne
    refine ⟨m, hm, ?_⟩
    obtain ⟨hl, hd⟩ := findAll_aadhaar_shape text.data _ 0 m hm
    rw [hl, hd]
    rfl

theorem findAllFrom_aadhaar_ne_nil (s : List Char) :
    ∀ (fuel pos : Nat), pos ≤ s.length → s.length + 1 - pos ≤ fuel →
      (findAllFrom aadhaarRe s pos fuel ≠ [] ↔
        ∃ q, pos ≤ q ∧ q ≤ s.length ∧ hitAt aadhaarRe false s q ≠ none) := by
  intro fuel
  induction fuel with
  | zero =>
    intro pos hpos hfuel
    omega
  | succ f ih =>
    intro pos hpos hfuel
    rw [findAllFrom]
    cases hh : hitAt aadhaarRe false s pos with
    | none =>
      simp only [hh]
      by_cases hlt : pos < s.length
      · rw [if_pos hlt, ih (pos + 1) (by omega) (by omega)]
        constructor
        · rintro ⟨q, hq1, hq2, hq3⟩
          exact ⟨q, by omega, hq2, hq3⟩
        · rintro ⟨q, hq1, hq2, hq3⟩
          refine ⟨q, ?_, hq2, hq3⟩
          rcases Nat.eq_or_lt_of_le hq1 with rfl | h
          · exact absurd hh hq3
          · omega
      · rw [if_neg hlt]
        constructor
        · intro hcon
          exact absurd rfl hcon
        · rintro ⟨q, hq1, hq2, hq3⟩
          have hq : q = pos := by omega
          subst hq
          exact absurd hh hq3
    | some eg =>
      obtain ⟨e, g⟩ := eg
      simp only [hh]
      constructor
      · intro _
        refine ⟨pos, le_refl pos, hpos, ?_⟩
        rw [hh]
        simp
      · intro _
        simp

theorem findAll_aadhaar_ne_nil (s : List Char) :
    findAll aadhaarRe s ≠ [] ↔
      ∃ q, q ≤ s.length ∧ hitAt aadhaarRe false s q ≠ none := by
  rw [findAll, findAllFrom_aadhaar_ne_nil s (s.length + 1) 0 (by omega) (by omega)]
  constructor
  · rintro ⟨q, -, hq2, hq3⟩
    exact ⟨q, hq2, hq3⟩
  · rintro ⟨q, hq2, hq3⟩
    exact ⟨q, by omega, hq2, hq3⟩

theorem getElem?_append_offset (l1 l2 : List Char) (i : Nat) :
    (l1 ++ l2)[l1.length + i]? = l2[i]? := by
  rw [List.getElem?_append_right (by omega)]
  congr 1
  omega

theorem exists_getElem?_of_lt {l : List Char} {i : Nat} (hi : i < l.length) :
    ∃ c, l[i]? = some c := by
  cases hc : l[i]? with
  | none =>
    rw [List.getElem?_eq_none_iff] at hc
    omega
  | some c => exact ⟨c, rfl⟩

theorem seg_char (pre mid rest : List Char) (i : Nat) (hi : i < mid.length) :
    ∃ c, (pre ++ (mid ++ rest))[pre.length + i]? = some c ∧ c ∈ mid := by
  obtain ⟨c, hc⟩ := exists_getElem?_of_lt hi
  refine ⟨c, ?_, List.getElem?_mem hc⟩
  rw [getElem?_append_offset, List.getElem?_append_left hi, hc]

theorem getElem?_congr_idx (l : List Char) {i j : Nat} (h : i = j) : l[i]? = l[j]? := by
  rw [h]

theorem head?_drop' (l : List Char) (n : Nat) : (l.drop n).head? = l[n]? := by
  cases hd : l.drop n with
  | nil =>
    rw [List.drop_eq_nil_iff] at hd
    rw [List.getElem?_eq_none (by omega)]
    rfl
  | cons a t =>
    have h0 : (l.drop n)[0]? = l[n]? := by
      rw [List.getElem?_drop]
      exact getElem?_congr_idx l (by omega)
    rw [hd] at h0
    simpa using h0

theorem cond_of_decomp (pre d1 s1 d2 s2 d3 post s : List Char)
    (hs : s = pre ++ (d1 ++ (s1 ++ (d2 ++ (s2 ++ (d3 ++ post))))))
    (hd1 : d1.length = 4) (hd2 : d2.length = 4) (hd3 : d3.length = 4)
    (ha1 : d1.all digitC = true) (ha2 : d2.all digitC = true) (ha3 : d3.all digitC = true)
    (hw1 : s1.all isPySpace = true) (hw2 : s2.all isPySpace = true)
    (hpre : pre = [] ∨ ∃ c, pre.getLast? = some c ∧ isWordChar c = false)
    (hpost : post = [] ∨ ∃ c, post.head? = some c ∧ isWordChar c = false) :
    aadhaarCond s pre.length ∧ pre.length ≤ s.length := by
  have hA2 : s = (pre ++ d1) ++ (s1 ++ (d2 ++ (s2 ++ (d3 ++ post)))) := by
    rw [hs, List.append_assoc]
  have hA3 : s = ((pre ++ d1) ++ s1) ++ (d2 ++ (s2 ++ (d3 ++ post))) := by
    rw [hs, List.append_assoc, List.append_assoc]
  have hA4 : s = (((pre ++ d1) ++ s1) ++ d2) ++ (s2 ++ (d3 ++ post)) := by
    rw [hs, List.append_assoc, List.append_assoc, List.append_assoc]
  have hA5 : s = ((((pre ++ d1) ++ s1) ++ d2) ++ s2) ++ (d3 ++ post) := by
    rw [hs, List.append_assoc, List.append_assoc, List.append_assoc, List.append_assoc]
  have hA6 : s = (((((pre ++ d1) ++ s1) ++ d2) ++ s2) ++ d3) ++ post := by
    rw [hs, List.append_assoc, List.append_assoc, List.append_assoc, List.append_assoc,
      List.append_assoc]
  have hL1 : (pre ++ d1).length = pre.length + 4 := by
    rw [List.length_append, hd1]
  have hL2 : ((pre ++ d1) ++ s1).length = pre.length + 4 + s1.length := by
    rw [List.length_append, hL1]
  have hL3 : (((pre ++ d1) ++ s1) ++ d2).length = pre.length + 4 + s1.length + 4 := by
    rw [List.length_append, hL2, hd2]
  have hL4 : ((((pre ++ d1) ++ s1) ++ d2) ++ s2).length =
      pre.length + 4 + s1.length + 4 + s2.length := by
    rw [List.length_append, hL3]
  have hL5 : (((((pre ++ d1) ++ s1) ++ d2) ++ s2) ++ d3).length =
      pre.length + 4 + s1.length + 4 + s2.length + 4 := by
    rw [List.length_append, hL4, hd3]
  -- the three digit groups
  have hc1 : ∀ i < 4, ∃ c, s[pre.length + i]? = some c ∧ reTest false digitC c = true := by
    intro i hi
    obtain ⟨c, hc, hmem⟩ := seg_char pre d1 (s1 ++ (d2 ++ (s2 ++ (d3 ++ post)))) i (by omega)
    rw [← hs] at hc
    exact ⟨c, hc, by rw [reTest_false]; exact List.all_eq_true.mp ha1 c hmem⟩
  have hc2 : ∀ i < 4, ∃ c, s[pre.length + 4 + s1.length + i]? = some c ∧
      reTest false digitC c = true := by
    intro i hi
    obtain ⟨c, hc, hmem⟩ := seg_char ((pre ++ d1) ++ s1) d2 (s2 ++ (d3 ++ post)) i (by omega)
    rw [← hA3, hL2] at hc
    exact ⟨c, hc, by rw [reTest_false]; exact List.all_eq_true.mp ha2 c hmem⟩
  have hc3 : ∀ i < 4, ∃ c, s[pre.length + 4 + s1.length + 4 + s2.length + i]? = some c ∧
      reTest false digitC c = true := by
    intro i hi
    obtain ⟨c, hc, hmem⟩ := seg_char ((((pre ++ d1) ++ s1) ++ d2) ++ s2) d3 post i (by omega)
    rw [← hA5, hL4] at hc
    exact ⟨c, hc, by rw [reTest_false]; exact List.all_eq_true.mp ha3 c hmem⟩
  -- the two whitespace runs, with their exact lengths
  have he1 : wRun s (pre.length + 4) = s1.length := by
    apply runLen_eq
    · intro i hi
      obtain ⟨c, hc, hmem⟩ := seg_char (pre ++ d1) s1 (d2 ++ (s2 ++ (d3 ++ post))) i hi
      rw [← hA2, hL1] at hc
      exact ⟨c, hc, by rw [reTest_false]; exact List.all_eq_true.mp hw1 c hmem⟩
    · right
      obtain ⟨c, hc, hd⟩ := hc2 0 (by omega)
      refine ⟨c, ?_, ?_⟩
      · rw [← hc]
        exact getElem?_congr_idx s (by omega)
      · rw [reTest_false] at hd ⊢
        exact digit_not_space hd
  have hP1 : aPos1 s pre.length = pre.length + 4 + s1.length := by
    unfold aPos1 wRun
    unfold wRun at he1
    rw [he1]
  have he2 : wRun s (pre.length + 4 + s1.length + 4) = s2.length := by
    apply runLen_eq
    · intro i hi
      obtain ⟨c, hc, hmem⟩ := seg_char (((pre ++ d1) ++ s1) ++ d2) s2 (d3 ++ post) i hi
      rw [← hA4, hL3] at hc
      exact ⟨c, hc, by rw [reTest_false]; exact List.all_eq_true.mp hw2 c hmem⟩
    · right
      obtain ⟨c, hc, hd⟩ := hc3 0 (by omega)
      refine ⟨c, ?_, ?_⟩
      · rw [← hc]
        exact getElem?_congr_idx s (by omega)
      · rw [reTest_false] at hd ⊢
        exact digit_not_space hd
  have hP2 : aPos2 s pre.length = pre.length + 4 + s1.length + 4 + s2.length := by
    unfold aPos2 wRun
    unfold wRun at he2
    rw [hP1, he2]
  have hEnd : aadhaarEnd s pre.length = pre.length + 4 + s1.length + 4 + s2.length + 4 := by
    unfold aadhaarEnd
    rw [hP2]
  -- digit-run lower bounds
  have hr1 : 4 ≤ dRun s pre.length := runLen_ge false digitC s pre.length 4 hc1
  have hr2 : 4 ≤ dRun s (aPos1 s pre.length) := by
    rw [hP1]
    exact runLen_ge false digitC s _ 4 hc2
  have hr3 : 4 ≤ dRun s (aPos2 s pre.length) := by
    rw [hP2]
    exact runLen_ge false digitC s _ 4 hc3
  -- word boundary on the left
  have hword0 : isWordAt s pre.length = true := by
    obtain ⟨c, hc, hd⟩ := hc1 0 (by omega)
    rw [reTest_false] at hd
    have hc' : s[pre.length]? = some c := by
      rw [← hc]
      exact getElem?_congr_idx s (by omega)
    simp only [isWordAt, hc']
    exact digit_isWord hd
  have hwbL : wbAt s pre.length = true := by
    rcases hpre with rfl | ⟨c, hlast, hword⟩
    · simp only [wbAt, List.length_nil, if_pos rfl]
      simpa using hword0
    · have hpre0 : pre ≠ [] := by
        intro h0
        rw [h0] at hlast
        simp at hlast
      have hlen0 : 0 < pre.length := List.length_pos.mpr hpre0
      have hidx : s[pre.length - 1]? = some c := by
        rw [hA2, List.append_assoc]
        rw [List.getElem?_append_left (by omega : pre.length - 1 < pre.length)]
        rw [List.getLast?_eq_getElem?] at hlast
        exact hlast
      have hw' : isWordAt s (pre.length - 1) = false := by
        simp only [isWordAt, hidx]
        exact hword
      simp only [wbAt, if_neg (by omega : ¬pre.length = 0), hw', hword0]
      rfl
  -- word boundary on the right
  have hwordE1 : isWordAt s (aadhaarEnd s pre.length - 1) = true := by
    obtain ⟨c, hc, hd⟩ := hc3 3 (by omega)
    rw [reTest_false] at hd
    have hc' : s[aadhaarEnd s pre.length - 1]? = some c := by
      rw [← hc]
      exact getElem?_congr_idx s (by rw [hEnd]; omega)
    simp only [isWordAt, hc']
    exact digit_isWord hd
  have hwordE2 : isWordAt s (aadhaarEnd s pre.length) = false := by
    rcases hpost with rfl | ⟨c, hhead, hword⟩
    · have hslen : s.length = pre.length + 4 + s1.length + 4 + s2.length + 4 := by
        rw [hA6, List.length_append, hL5]
        simp
      have hnone : s[aadhaarEnd s pre.length]? = none := by
        apply List.getElem?_eq_none
        rw [hEnd, hslen]
      simp only [isWordAt, hnone]
    · have hsome : s[aadhaarEnd s pre.length]? = some c := by
        cases hq : post with
        | nil =>
          rw [hq] at hhead
          simp at hhead
        | cons a t =>
          rw [hq] at hhead
          simp only [List.head?_cons, Option.some.injEq] at hhead
          have h1 : s[(((((pre ++ d1) ++ s1) ++ d2) ++ s2) ++ d3).length + 0]? =
              post[0]? := by
            conv_lhs => rw [hA6]
            exact getElem?_append_offset _ _ 0
          have h2 : s[aadhaarEnd s pre.length]? =
              s[(((((pre ++ d1) ++ s1) ++ d2) ++ s2) ++ d3).length + 0]? :=
            getElem?_congr_idx s (by rw [hEnd, hL5])
          rw [h2, h1, hq]
          simp [hhead]
      simp only [isWordAt, hsome]
      exact hword
  have hwbR : wbAt s (aadhaarEnd s pre.length) = true := by
    have hE0 : ¬aadhaarEnd s pre.length = 0 := by
      rw [hEnd]
      omega
    simp only [wbAt, if_neg hE0, hwordE1, hwordE2]
    rfl
  refine ⟨⟨hwbL, hr1, hr2, hr3, hwbR⟩, ?_⟩
  rw [hs]
  simp

theorem decomp_of_cond (s : List Char) (pos : Nat) (h : aadhaarCond s pos) :
    ∃ pre d1 s1 d2 s2 d3 post : List Char,
      s = pre ++ d1 ++ s1 ++ d2 ++ s2 ++ d3 ++ post ∧
      d1.length = 4 ∧ d2.length = 4 ∧ d3.length = 4 ∧
      d1.all digitC = true ∧ d2.all digitC = true ∧ d3.all digitC = true ∧
      s1.all isPySpace = true ∧ s2.all isPySpace = true ∧
      (pre = [] ∨ ∃ c, pre.getLast? = some c ∧ isWordChar c = false) ∧
      (post = [] ∨ ∃ c, post.head? = some c ∧ isWordChar c = false) ∧
      (despace (d1 ++ s1 ++ d2 ++ s2 ++ d3)).length = 12 := by
  obtain ⟨h1, h2, h3, h4, h5⟩ := h
  refine ⟨s.take pos, (s.drop pos).take 4,
    (s.drop (pos + 4)).take (wRun s (pos + 4)),
    (s.drop (aPos1 s pos)).take 4,
    (s.drop (aPos1 s pos + 4)).take (wRun s (aPos1 s pos + 4)),
    (s.drop (aPos2 s pos)).take 4,
    s.drop (aadhaarEnd s pos), ?_, ?_, ?_, ?_, ?_, ?_, ?_, ?_, ?_, ?_, ?_, ?_⟩
  · have hposle : pos + (aadhaarEnd s pos - pos) = aadhaarEnd s pos := by
      unfold aadhaarEnd aPos2 aPos1
      omega
    have hsplit : s = s.take pos ++
        (subSlice s pos (aadhaarEnd s pos) ++ s.drop (aadhaarEnd s pos)) := by
      conv_lhs => rw [← List.take_append_drop pos s]
      congr 1
      conv_lhs =>
        rw [← List.take_append_drop (aadhaarEnd s pos - pos) (s.drop pos)]
      rw [drop_drop', hposle]
      rfl
    conv_lhs => rw [hsplit]
    rw [aadhaar_seg_decomp]
    simp [List.append_assoc]
  · exact take_digits_len s pos h2
  · exact take_digits_len s (aPos1 s pos) h3
  · exact take_digits_len s (aPos2 s pos) h4
  · exact List.all_eq_true.mpr (take_digits_all s pos h2)
  · exact List.all_eq_true.mpr (take_digits_all s (aPos1 s pos) h3)
  · exact List.all_eq_true.mpr (take_digits_all s (aPos2 s pos) h4)
  · exact List.all_eq_true.mpr (take_spaces_all s (pos + 4))
  · exact List.all_eq_true.mpr (take_spaces_all s (aPos1 s pos + 4))
  · -- left boundary
    by_cases hp0 : pos = 0
    · left
      rw [hp0]
      rfl
    · right
      have hd0 : ∃ c, s[pos]? = some c ∧ reTest false digitC c = true := by
        obtain ⟨c, hc, hd⟩ := runLen_chars false digitC s pos 0 (by
          unfold dRun at h2
          omega)
        exact ⟨c, by rw [← hc]; exact getElem?_congr_idx s (by omega), hd⟩
      obtain ⟨c0, hc0, hd0⟩ := hd0
      rw [reTest_false] at hd0
      have hwpos : isWordAt s pos = true := by
        simp only [isWordAt, hc0]
        exact digit_isWord hd0
      rw [wbAt, if_neg hp0] at h1
      have hwprev : isWordAt s (pos - 1) = false := by
        cases hb : isWordAt s (pos - 1) with
        | false => rfl
        | true =>
          rw [hb, hwpos] at h1
          simp at h1
      have hposlen : pos < s.length := by
        have := List.getElem?_eq_none_iff (l := s) (n := pos)
        by_contra hcon
        rw [List.getElem?_eq_none (by omega)] at hc0
        exact Option.noConfusion hc0
      obtain ⟨c1, hc1⟩ := exists_getElem?_of_lt (l := s) (i := pos - 1) (by omega)
      have hw1 : isWordChar c1 = false := by
        simp only [isWordAt, hc1] at hwprev
        exact hwprev
      refine ⟨c1, ?_, hw1⟩
      rw [List.getLast?_eq_getElem?]
      have hlt : (s.take pos).length = pos := by
        rw [List.length_take]
        omega
      rw [hlt, List.getElem?_take_of_lt (by omega)]
      exact hc1
  · -- right boundary
    have hE0 : ¬aadhaarEnd s pos = 0 := by
      unfold aadhaarEnd aPos2 aPos1
      omega
    have hwE1 : isWordAt s (aadhaarEnd s pos - 1) = true := by
      obtain ⟨c, hc, hd⟩ := runLen_chars false digitC s (aPos2 s pos) 3 (by
        unfold dRun at h4
        omega)
      rw [reTest_false] at hd
      have hc' : s[aadhaarEnd s pos - 1]? = some c := by
        rw [← hc]
        exact getElem?_congr_idx s (by unfold aadhaarEnd; omega)
      simp only [isWordAt, hc']
      exact digit_isWord hd
    rw [wbAt, if_neg hE0] at h5
    have hwE2 : isWordAt s (aadhaarEnd s pos) = false := by
      cases hb : isWordAt s (aadhaarEnd s pos) with
      | false => rfl
      | true =>
        rw [hb, hwE1] at h5
        simp at h5
    cases hse : s[aadhaarEnd s pos]? with
    | none =>
      left
      apply List.drop_eq_nil_of_le
      rw [List.getElem?_eq_none_iff] at hse
      exact hse
    | some c =>
      right
      refine ⟨c, ?_, ?_⟩
      · rw [head?_drop']
        exact hse
      · simp only [isWordAt, hse] at hwE2
        exact hwE2
  · rw [show (s.drop pos).take 4 ++ (s.drop (pos + 4)).take (wRun s (pos + 4)) ++
        (s.drop (aPos1 s pos)).take 4 ++
        (s.drop (aPos1 s pos + 4)).take (wRun s (aPos1 s pos + 4)) ++
        (s.drop (aPos2 s pos)).take 4 = subSlice s pos (aadhaarEnd s pos) by
      rw [aadhaar_seg_decomp]
      simp [List.append_assoc]]
    exact (aadhaar_match_shape s pos ⟨h1, h2, h3, h4, h5⟩).1

/-- C7: the aadhaar rule accepts `"1234 5678 9012"` and rejects
    `"1234 5678 901"`; in general it is valid exactly when the text contains
    a word-bounded match of three groups of four digits, optionally
    space-separated, whose de-spaced form is exactly 12 digits. -/
theorem C7_aadhaar_rule :
    (AadhaarValidationRule.validateFn "1234 5678 9012").valid = true ∧
    (AadhaarValidationRule.validateFn "1234 5678 901").valid = false ∧
    ∀ text : String,
      (AadhaarValidationRule.validateFn text).valid = true ↔ ContainsAadhaar text := by
  refine ⟨by decide, by decide, fun text => ?_⟩
  rw [aadhaar_valid_iff_ne_nil, findAll_aadhaar_ne_nil]
  constructor
  · rintro ⟨q, hq, hhit⟩
    have hcond : aadhaarCond text.data q := by
      rw [hitAt_aadhaar] at hhit
      by_cases hc : aadhaarCond text.data q
      · exact hc
      · rw [if_neg hc] at hhit
        exact absurd rfl hhit
    exact decomp_of_cond text.data q hcond
  · rintro ⟨pre, d1, s1, d2, s2, d3, post, hdec, hl1, hl2, hl3, ha1, ha2, ha3,
      hsp1, hsp2, hbl, hbr, hd12⟩
    obtain ⟨hcond, hle⟩ := cond_of_decomp pre d1 s1 d2 s2 d3 post text.data
      (by rw [hdec]; simp [List.append_assoc])
      hl1 hl2 hl3 ha1 ha2 ha3 hsp1 hsp2 hbl hbr
    refine ⟨pre.length, hle, ?_⟩
    rw [hitAt_aadhaar, if_pos hcond]
    simp
